import Mathlib

/-!
# Hint runner of cairo-vm-go: reference parser and memcpy hint

A shallow embedding of `pkg/hintrunner/zero/hintparser.go` (the grammar of hint
references and the evaluation of its syntax tree) and of
`pkg/hintrunner/zero/zerohint_memcpy.go` (the MemcpyContinueCopying and scope
hints), followed by theorems about them.

Conventions of the embedding.
* Go `int16` values are `Int`s kept in `[-32768, 32767]`; every `int16`
  operation of the source is followed by `wrap16`.
* A Go result `(value, error)` is an `Except EvalError value`.
* A struct of the grammar whose fields are alternatives (`@@ |`) keeps them as
  `Option` fields, so that the `switch` of its `Evaluate` is read in the
  source order; a pointer field the grammar always fills is a plain field.
* Packages `hinter`, `utils`, `memory` and `VM` lie outside the two files
  embedded here; what is needed of them is modelled from the specification
  and marked so, or taken as a parameter.
-/

namespace Zero

/-! ## Field elements -/

/-- The Stark prime `2^251 + 17 * 2^192 + 1`, modulus of `fp.Element`. -/
def P : Nat := 3618502788666131213697322783095070105623107215331596699973092056135872020481

instance instNeZeroP : NeZero P := ⟨by decide⟩

/-- A field element `fp.Element`, by its canonical representative. -/
abbrev Felt := Fin P

/-- The call `new(fp.Element).SetBigInt(v)`: the residue of `v` modulo `P`. -/
def Felt.SetBigInt (v : Int) : Felt :=
  ⟨(v % (P : Int)).toNat, by
    have hpos : (0 : Int) < (P : Int) := by decide
    have h0 := Int.emod_nonneg v (ne_of_gt hpos)
    have h1 := Int.emod_lt_of_pos v hpos
    omega⟩

/-- The call `z.Sub(x, y)` of `fp.Element`: subtraction in the field. -/
def Felt.Sub (x y : Felt) : Felt := x - y

/-- The constant `utils.FeltOne`. -/
def FeltOne : Felt := 1

/-- The constant `utils.FeltZero`. -/
def FeltZero : Felt := 0

/-! ## Sixteen bit offsets -/

/-- The value an `int16` variable holds after a Go operation whose exact
result is `x`: `x` reduced into `[-32768, 32767]` modulo `2^16`. -/
def wrap16 (x : Int) : Int := (x + 32768) % 65536 - 32768

/-- Modelled from the spec: `utils.Int16FromBigInt`, the narrowing of an
arbitrary-precision integer to `i16`; it succeeds exactly on the integers of
`[-32768, 32767]` ("narrowing failure is a hard evaluation error"). -/
def Int16FromBigInt (n : Int) : Option Int :=
  if -32768 ≤ n ∧ n ≤ 32767 then some n else none

/-- Modelled from the spec: `utils.Int16FromFelt`, the conversion of a field
element to a signed 16-bit integer; it succeeds on the residues of the
integers of `[-32768, 32767]` and gives that integer. -/
def Int16FromFelt (f : Felt) : Option Int :=
  if f.val ≤ 32767 then some (f.val : Int)
  else if P - f.val ≤ 32768 then some (-((P - f.val : Nat) : Int))
  else none

/-! ## References (package `hinter`) -/

/-- The type `hinter.Operator`. -/
inductive Operator where
  | Add
  | Mul
  deriving DecidableEq, Repr

/-- The values of the interface `hinter.Reference` that the evaluator builds:
`ApCellRef`, `FpCellRef`, `Deref`, `DoubleDeref`, `Immediate` and `BinaryOp`. -/
inductive Reference where
  | ApCellRef (offset : Int)
  | FpCellRef (offset : Int)
  | Deref (deref : Reference)
  | DoubleDeref (deref : Reference) (offset : Int)
  | Immediate (value : Felt)
  | BinaryOp (operator : Operator) (lhs rhs : Reference)
  deriving DecidableEq, Repr

/-- Modelled from the spec: the method `AddOffset` of `Deref`, when `Deref`
has one. The interface `hinter.CellRefer` is declared in package `hinter`; the
code calls `AddOffset` on whatever implements it. `none` stands for "`Deref`
does not implement `CellRefer`", `some f` for "it does, and `f d off` is
`d.AddOffset(off)`". -/
abbrev DerefAddOffset := Option (Reference → Int → Reference)

/-- Modelled from the spec: the type assertion `x.(hinter.CellRefer)`. The
register references `ApCellRef` and `FpCellRef` are cell references; an
`Immediate`, a `BinaryOp` and a `DoubleDeref` are not; a `Deref` is one exactly
when it has the method `AddOffset`. -/
def isCellRefer (h : DerefAddOffset) : Reference → Bool
  | .ApCellRef _ => true
  | .FpCellRef _ => true
  | .Deref _ => h.isSome
  | _ => false

/-- Modelled from the spec: the method `AddOffset` of a `hinter.CellRefer`.
On a register reference the offset is added in `int16`. -/
def AddOffset (h : DerefAddOffset) : Reference → Int → Reference
  | .ApCellRef k, off => .ApCellRef (wrap16 (k + off))
  | .FpCellRef k, off => .FpCellRef (wrap16 (k + off))
  | r, off =>
    match h with
    | some f => f r off
    | none => r

/-! ## Errors -/

/-- What `ParseIdentifier` returns instead of a reference: an `error` value
built by `fmt.Errorf`, a nil pointer dereference of the Go program, or the
error of the parser on a text that is not of the grammar. -/
inductive EvalError where
  | error (msg : String)
  | nilPointer
  | parseFailure
  deriving DecidableEq, Repr

/-! ## Syntax tree of a hint reference (the grammar structs) -/

/-- Grammar struct `OffsetExp`: `@Number | "(" "-" @Number ")"`. An
alternative that did not match leaves its string empty. -/
structure OffsetExp where
  Number : String
  NegNumber : String
  deriving DecidableEq, Repr

/-- Grammar struct `RegisterOffset`: register, operator, offset. -/
structure RegisterOffset where
  Register : String
  Operator : String
  Offset : OffsetExp
  deriving DecidableEq, Repr

/-- Grammar struct `CellRefSimple`: `RegisterOffset | ("ap" | "fp")`. -/
structure CellRefSimple where
  RegisterOffset : Option RegisterOffset
  Register : String
  deriving DecidableEq, Repr

/-- Grammar struct `CellRefExp`: `"(" RegisterOffset ")" | ("ap" | "fp")`. -/
structure CellRefExp where
  RegisterOffset : Option RegisterOffset
  Register : String
  deriving DecidableEq, Repr

/-- Grammar struct `DerefExp`: `"[" CellRefSimple "]"`. -/
structure DerefExp where
  CellRefExp : CellRefSimple
  deriving DecidableEq, Repr

/-- Grammar struct `DerefOffsetExp`: a deref, an operator, an offset. -/
structure DerefOffsetExp where
  DerefExp : DerefExp
  Operator : String
  Offset : OffsetExp
  deriving DecidableEq, Repr

/-- Grammar struct `DDerefExp`: `"[" DerefOffsetExp "]" | "[" DerefExp "]"`. -/
structure DDerefExp where
  DerefOffsetExp : Option DerefOffsetExp
  DerefExp : Option DerefExp
  deriving DecidableEq, Repr

/-- Grammar struct `Expression`: `DDerefExp | DerefExp | CellRefExp | IntExp`. -/
structure Expression where
  DDerefExp : Option DDerefExp
  DerefExp : Option DerefExp
  CellRefExp : Option CellRefExp
  IntExp : Option OffsetExp
  deriving DecidableEq, Repr

/-- Grammar struct `ProdExp`: `Expression "*" Expression`. -/
structure ProdExp where
  LeftExp : Expression
  Operator : String
  RightExp : Expression
  deriving DecidableEq, Repr

/-- Grammar struct `TermExp`: `ProdExp | Expression`. -/
structure TermExp where
  ProdExp : Option ProdExp
  Exp : Option Expression
  deriving DecidableEq, Repr

/-- Grammar struct `AddExp`: `("+" | "-") TermExp`. -/
structure AddExp where
  Operator : String
  TermExp : TermExp
  deriving DecidableEq, Repr

/-- Grammar struct `ArithExp`: `TermExp AddExp*`. -/
structure ArithExp where
  TermExp : TermExp
  AddExp : List AddExp
  deriving DecidableEq, Repr

/-- Grammar struct `CastExp`: `"cast" "(" ArithExp "," type ")"`. -/
structure CastExp where
  ValueExp : ArithExp
  CastType : List String
  deriving DecidableEq, Repr

/-- Grammar struct `DerefCastExp`: `"[" CastExp "]"`. -/
structure DerefCastExp where
  CastExp : CastExp
  deriving DecidableEq, Repr

/-- Grammar struct `IdentifierExp`: `DerefCastExp | CastExp`. -/
structure IdentifierExp where
  DerefCastExp : Option DerefCastExp
  CastExp : Option CastExp
  deriving DecidableEq, Repr

/-! ## Evaluation of the syntax tree -/

/-- The value of a run of decimal digits read most significant first, on top
of the value `acc` of the digits already read; `none` at the first character
that is not a digit. -/
def digitsValue : List Char → Nat → Option Nat
  | [], acc => some acc
  | c :: cs, acc =>
    if c.isDigit then digitsValue cs (10 * acc + (c.toNat - 48)) else none

/-- The call `new(big.Int).SetString(s, 10)`: an optional sign followed by one
decimal digit or more, and nothing else. -/
def bigIntSetString (s : String) : Option Int :=
  match s.toList with
  | [] => none
  | '-' :: c :: cs => (digitsValue (c :: cs) 0).map fun n => -(n : Int)
  | '+' :: c :: cs => (digitsValue (c :: cs) 0).map fun n => (n : Int)
  | '-' :: [] => none
  | '+' :: [] => none
  | c :: cs => (digitsValue (c :: cs) 0).map fun n => (n : Int)

/-- Method `OffsetExp.Evaluate`. -/
def OffsetExp.Evaluate (expression : OffsetExp) : Except EvalError Int :=
  if expression.Number ≠ "" then
    match bigIntSetString expression.Number with
    | none => .error (.error "expected a number")
    | some bigIntValue => .ok bigIntValue
  else if expression.NegNumber ≠ "" then
    match bigIntSetString expression.NegNumber with
    | none => .error (.error "expected a number")
    | some bigIntValue => .ok (-bigIntValue)
  else .error (.error "expected a number")

/-- Function `EvaluateRegister`. -/
def EvaluateRegister (register : String) (offset : Int) : Except EvalError Reference :=
  if register = "ap" then .ok (.ApCellRef offset)
  else if register = "fp" then .ok (.FpCellRef offset)
  else .error (.error "invalid offset value")

/-- Method `RegisterOffset.Evaluate`. The error of `Offset.Evaluate` is
dropped by the source (`offsetValue, _ := ...`); the value is then a nil
`*big.Int`, whose use is a nil pointer dereference. -/
def RegisterOffset.Evaluate (expression : RegisterOffset) : Except EvalError Reference :=
  match expression.Offset.Evaluate with
  | .error _ => .error .nilPointer
  | .ok offsetValue =>
    match Int16FromBigInt offsetValue with
    | none => .error (.error "offset does not fit in int16")
    | some offset =>
      let offset := if expression.Operator = "-" then wrap16 (-offset) else offset
      EvaluateRegister expression.Register offset

/-- Method `CellRefSimple.Evaluate`. -/
def CellRefSimple.Evaluate (expression : CellRefSimple) : Except EvalError Reference :=
  match expression.RegisterOffset with
  | some registerOffset => registerOffset.Evaluate
  | none => EvaluateRegister expression.Register 0

/-- Method `CellRefExp.Evaluate`. -/
def CellRefExp.Evaluate (expression : CellRefExp) : Except EvalError Reference :=
  match expression.RegisterOffset with
  | some registerOffset => registerOffset.Evaluate
  | none => EvaluateRegister expression.Register 0

/-- Method `DerefExp.Evaluate`; the result, a `hinter.Deref`, is given as the
reference it is. -/
def DerefExp.Evaluate (expression : DerefExp) : Except EvalError Reference :=
  match expression.CellRefExp.Evaluate with
  | .error err => .error err
  | .ok cellRef => .ok (.Deref cellRef)

/-- Method `DDerefExp.Evaluate`; the result, a `hinter.DoubleDeref`, is given
as the reference it is. -/
def DDerefExp.Evaluate (expression : DDerefExp) : Except EvalError Reference :=
  match expression.DerefExp with
  | some derefExp0 =>
    match derefExp0.Evaluate with
    | .error err => .error err
    | .ok derefExp => .ok (.DoubleDeref derefExp 0)
  | none =>
    match expression.DerefOffsetExp with
    | some derefOffsetExp =>
      match derefOffsetExp.DerefExp.Evaluate with
      | .error err => .error err
      | .ok derefExp =>
        match derefOffsetExp.Offset.Evaluate with
        | .error err => .error err
        | .ok offsetValue =>
          match Int16FromBigInt offsetValue with
          | none => .error (.error "offset does not fit in int16")
          | some offset =>
            let offset := if derefOffsetExp.Operator = "-" then wrap16 (-offset) else offset
            .ok (.DoubleDeref derefExp offset)
    | none => .error (.error "unexpected double deref expression")

/-- Method `Expression.Evaluate`. -/
def Expression.Evaluate (expression : Expression) : Except EvalError Reference :=
  match expression.IntExp with
  | some intExp0 =>
    match intExp0.Evaluate with
    | .error err => .error err
    | .ok intExp => .ok (.Immediate (Felt.SetBigInt intExp))
  | none =>
    match expression.CellRefExp with
    | some cellRefExp => cellRefExp.Evaluate
    | none =>
      match expression.DerefExp with
      | some derefExp => derefExp.Evaluate
      | none =>
        match expression.DDerefExp with
        | some dderefExp => dderefExp.Evaluate
        | none => .error (.error "unexpected expression value")

/-- Method `ProdExp.Evaluate`. -/
def ProdExp.Evaluate (expression : ProdExp) : Except EvalError Reference :=
  match expression.LeftExp.Evaluate with
  | .error err => .error err
  | .ok leftExp =>
    match expression.RightExp.Evaluate with
    | .error err => .error err
    | .ok rightExp => .ok (.BinaryOp .Mul leftExp rightExp)

/-- Method `TermExp.Evaluate`. -/
def TermExp.Evaluate (expression : TermExp) : Except EvalError Reference :=
  match expression.ProdExp with
  | some prodExp => prodExp.Evaluate
  | none =>
    match expression.Exp with
    | some exp => exp.Evaluate
    | none => .error (.error "unexpected identifier value")

/-- Function `parseOperator`. The verb `%q` of the error text is rendered by
`String.quote`, which agrees with it on every text free of control characters,
as are all the texts the lexer gives. -/
def parseOperator (op : String) : Except EvalError Operator :=
  if op = "+" then .ok .Add
  else if op = "*" then .ok .Mul
  else .error (.error ("unexpected op: " ++ op.quote))

/-- The first loop of `ArithExp.Evaluate` (`leftExp` is a `CellRefer`), from
the value `leftResult` reached so far, over the terms still to come. -/
def ArithExp.accumulate (h : DerefAddOffset) :
    Reference → List Zero.AddExp → Except EvalError Reference
  | leftResult, [] => .ok leftResult
  | leftResult, term :: rest =>
    match term.TermExp.Evaluate with
    | .error err => .error err
    | .ok rightExp =>
      match rightExp with
      | .Immediate rightResult =>
        match Int16FromFelt rightResult with
        | none => .error (.error "invalid arithmetic expression")
        | some off =>
          let off := if term.Operator = "-" then wrap16 (-off) else off
          ArithExp.accumulate h (AddOffset h leftResult off) rest
      | _ => .error (.error "invalid arithmetic expression")

/-- The second loop of `ArithExp.Evaluate` (`leftExp` is no `CellRefer`),
from the value `leftExp` reached so far, over the terms still to come. -/
def ArithExp.fold : Reference → List Zero.AddExp → Except EvalError Reference
  | leftExp, [] => .ok leftExp
  | leftExp, term :: rest =>
    match term.TermExp.Evaluate with
    | .error err => .error err
    | .ok rightExp =>
      match parseOperator term.Operator with
      | .error err => .error err
      | .ok op => ArithExp.fold (.BinaryOp op leftExp rightExp) rest

/-- Method `ArithExp.Evaluate`. -/
def ArithExp.Evaluate (h : DerefAddOffset) (expression : ArithExp) :
    Except EvalError Reference :=
  match expression.TermExp.Evaluate with
  | .error err => .error err
  | .ok leftExp =>
    if isCellRefer h leftExp then ArithExp.accumulate h leftExp expression.AddExp
    else ArithExp.fold leftExp expression.AddExp

/-- Method `CastExp.Evaluate`. -/
def CastExp.Evaluate (h : DerefAddOffset) (expression : CastExp) :
    Except EvalError Reference :=
  expression.ValueExp.Evaluate h

/-- The type switch of `DerefCastExp.Evaluate` on the value of the inner
expression. -/
def DerefCastExp.reinterpret : Reference → Except EvalError Reference
  | .ApCellRef k => .ok (.Deref (.ApCellRef k))
  | .FpCellRef k => .ok (.Deref (.FpCellRef k))
  | .Deref d => .ok (.DoubleDeref (.Deref d) 0)
  | .BinaryOp _ (.Deref d) (.Immediate right) =>
    match Int16FromFelt right with
    | some offset => .ok (.DoubleDeref (.Deref d) offset)
    | none => .error (.error "invalid binary operation inside a deref")
  | .BinaryOp _ _ _ => .error (.error "invalid binary operation inside a deref")
  | _ => .error (.error "unexpected deref expression")

/-- Method `DerefCastExp.Evaluate`. -/
def DerefCastExp.Evaluate (h : DerefAddOffset) (expression : DerefCastExp) :
    Except EvalError Reference :=
  match expression.CastExp.ValueExp.Evaluate h with
  | .error err => .error err
  | .ok value => DerefCastExp.reinterpret value

/-- Method `IdentifierExp.Evaluate`. -/
def IdentifierExp.Evaluate (h : DerefAddOffset) (expression : IdentifierExp) :
    Except EvalError Reference :=
  match expression.DerefCastExp with
  | some derefCastExp => derefCastExp.Evaluate h
  | none =>
    match expression.CastExp with
    | some castExp => castExp.Evaluate h
    | none => .error (.error "unexpected identifier value")

/-! ## Lexer (`basicLexer`) -/

/-- The token types of `basicLexer` that are emitted; `whitespace` is elided. -/
inductive TokenKind where
  | Number
  | Ident
  | Punct
  deriving DecidableEq, Repr

/-- A token: its type and its text. -/
structure Token where
  kind : TokenKind
  value : String
  deriving DecidableEq, Repr

/-- The characters of the rule `Punct`: the class
`-[!@#$%^&*()+_={}|:;"'<,>.?/` and the closing bracket. -/
def punctChars : List Char :=
  "-[!@#$%^&*()+_=|:;<,>.?/]".toList ++
    [Char.ofNat 123, Char.ofNat 125, Char.ofNat 34, Char.ofNat 39]

/-- A character of the class `\w`. -/
def isWordChar (c : Char) : Bool := c.isAlphanum || c == '_'

/-- The token finished so far: its type and its characters, last first. -/
abbrev Pending := Option (TokenKind × List Char)

/-- The token a pending run of characters makes. -/
def Pending.emit : Pending → List Token
  | none => []
  | some (k, buf) => [⟨k, String.mk buf.reverse⟩]

/-- The rules of `basicLexer` tried in their order at the start of a token, on
its first character `c`: `Number` (`\d+`), `Ident` (`[a-zA-Z_]\w*`), `Punct`
(one character), `whitespace` (`[ \t]+`, no token). The result is the tokens
complete at once and the token left open; `none` when no rule matches. -/
def lexStart (c : Char) : Option (List Token × Pending) :=
  if c.isDigit then some ([], some (.Number, [c]))
  else if c.isAlpha || c == '_' then some ([], some (.Ident, [c]))
  else if punctChars.contains c then some ([⟨.Punct, String.mk [c]⟩], none)
  else if c == ' ' || c == '\t' then some ([], none)
  else none

/-- The lexer, one character at a time: an open `Number` takes every digit, an
open `Ident` every character of `\w`; any other character closes the open
token and starts the next one. -/
def lexFrom : List Char → Pending → Option (List Token)
  | [], st => some st.emit
  | c :: cs, some (.Number, buf) =>
    if c.isDigit then lexFrom cs (some (.Number, c :: buf))
    else
      match lexStart c with
      | none => none
      | some (now, st) =>
        (lexFrom cs st).map fun rest => Pending.emit (some (.Number, buf)) ++ now ++ rest
  | c :: cs, some (.Ident, buf) =>
    if isWordChar c then lexFrom cs (some (.Ident, c :: buf))
    else
      match lexStart c with
      | none => none
      | some (now, st) =>
        (lexFrom cs st).map fun rest => Pending.emit (some (.Ident, buf)) ++ now ++ rest
  | c :: cs, _ =>
    match lexStart c with
    | none => none
    | some (now, st) => (lexFrom cs st).map fun rest => now ++ rest

/-- The tokens of a text, or `none` when a character fits no rule. -/
def lex (value : String) : Option (List Token) := lexFrom value.toList none

/-! ## Parser (the grammar of the struct tags)

Alternatives are tried in their order and the first that matches is kept; a
repetition takes as many items as match. -/

/-- The result of a grammar node: the value and the tokens left. -/
abbrev Parse (α : Type) := List Token → Option (α × List Token)

/-- A literal of the grammar: the next token has this text. -/
def literal (v : String) : Parse Unit
  | t :: ts => if t.value = v then some ((), ts) else none
  | [] => none

/-- A captured choice of literals, `@("a" | "b")`. -/
def capture (vs : List String) : Parse String
  | t :: ts => if vs.contains t.value then some (t.value, ts) else none
  | [] => none

/-- A captured token of a given type, `@Number` or `@Ident`. -/
def captureKind (k : TokenKind) : Parse String
  | t :: ts => if t.kind = k then some (t.value, ts) else none
  | [] => none

/-- Node `OffsetExp`. -/
def parseOffsetExp : Parse OffsetExp := fun ts =>
  match captureKind .Number ts with
  | some (n, ts) => some (⟨n, ""⟩, ts)
  | none => do
    let (_, ts) ← literal "(" ts
    let (_, ts) ← literal "-" ts
    let (n, ts) ← captureKind .Number ts
    let (_, ts) ← literal ")" ts
    pure (⟨"", n⟩, ts)

/-- Node `RegisterOffset`. -/
def parseRegisterOffset : Parse RegisterOffset := fun ts => do
  let (register, ts) ← capture ["ap", "fp"] ts
  let (operator, ts) ← capture ["+", "-"] ts
  let (offset, ts) ← parseOffsetExp ts
  pure (⟨register, operator, offset⟩, ts)

/-- Node `CellRefSimple`. -/
def parseCellRefSimple : Parse CellRefSimple := fun ts =>
  match parseRegisterOffset ts with
  | some (ro, ts) => some (⟨some ro, ""⟩, ts)
  | none => do
    let (register, ts) ← capture ["ap", "fp"] ts
    pure (⟨none, register⟩, ts)

/-- Node `CellRefExp`. -/
def parseCellRefExp : Parse CellRefExp := fun ts =>
  let first : Option (CellRefExp × List Token) := do
    let (_, ts) ← literal "(" ts
    let (ro, ts) ← parseRegisterOffset ts
    let (_, ts) ← literal ")" ts
    pure (⟨some ro, ""⟩, ts)
  match first with
  | some r => some r
  | none => do
    let (register, ts) ← capture ["ap", "fp"] ts
    pure (⟨none, register⟩, ts)

/-- Node `DerefExp`. -/
def parseDerefExp : Parse DerefExp := fun ts => do
  let (_, ts) ← literal "[" ts
  let (cellRef, ts) ← parseCellRefSimple ts
  let (_, ts) ← literal "]" ts
  pure (⟨cellRef⟩, ts)

/-- Node `DerefOffsetExp`. -/
def parseDerefOffsetExp : Parse DerefOffsetExp := fun ts => do
  let (deref, ts) ← parseDerefExp ts
  let (operator, ts) ← capture ["+", "-"] ts
  let (offset, ts) ← parseOffsetExp ts
  pure (⟨deref, operator, offset⟩, ts)

/-- Node `DDerefExp`. -/
def parseDDerefExp : Parse DDerefExp := fun ts =>
  let first : Option (DDerefExp × List Token) := do
    let (_, ts) ← literal "[" ts
    let (derefOffset, ts) ← parseDerefOffsetExp ts
    let (_, ts) ← literal "]" ts
    pure (⟨some derefOffset, none⟩, ts)
  match first with
  | some r => some r
  | none => do
    let (_, ts) ← literal "[" ts
    let (deref, ts) ← parseDerefExp ts
    let (_, ts) ← literal "]" ts
    pure (⟨none, some deref⟩, ts)

/-- Node `Expression`. -/
def parseExpression : Parse Expression := fun ts =>
  match parseDDerefExp ts with
  | some (e, ts) => some (⟨some e, none, none, none⟩, ts)
  | none =>
    match parseDerefExp ts with
    | some (e, ts) => some (⟨none, some e, none, none⟩, ts)
    | none =>
      match parseCellRefExp ts with
      | some (e, ts) => some (⟨none, none, some e, none⟩, ts)
      | none =>
        match parseOffsetExp ts with
        | some (e, ts) => some (⟨none, none, none, some e⟩, ts)
        | none => none

/-- Node `ProdExp`; the operator is matched and not captured. -/
def parseProdExp : Parse ProdExp := fun ts => do
  let (left, ts) ← parseExpression ts
  let (_, ts) ← literal "*" ts
  let (right, ts) ← parseExpression ts
  pure (⟨left, "", right⟩, ts)

/-- Node `TermExp`. -/
def parseTermExp : Parse TermExp := fun ts =>
  match parseProdExp ts with
  | some (e, ts) => some (⟨some e, none⟩, ts)
  | none =>
    match parseExpression ts with
    | some (e, ts) => some (⟨none, some e⟩, ts)
    | none => none

/-- Node `AddExp`. -/
def parseAddExp : Parse AddExp := fun ts => do
  let (operator, ts) ← capture ["+", "-"] ts
  let (term, ts) ← parseTermExp ts
  pure (⟨operator, term⟩, ts)

/-- The repetition `AddExp*`, bounded by `fuel` items. -/
def parseAddExps : Nat → Parse (List AddExp)
  | 0, ts => some ([], ts)
  | fuel + 1, ts =>
    match parseAddExp ts with
    | none => some ([], ts)
    | some (e, ts) =>
      match parseAddExps fuel ts with
      | none => none
      | some (es, ts) => some (e :: es, ts)

/-- Node `ArithExp`. Every item of the repetition takes a token at least, so
the number of tokens bounds the number of items. -/
def parseArithExp : Parse ArithExp := fun ts => do
  let (term, ts) ← parseTermExp ts
  let (adds, ts) ← parseAddExps ts.length ts
  pure (⟨term, adds⟩, ts)

/-- The repetition `("." @Ident)*` of the cast type, bounded by `fuel` items. -/
def parseTypeTail : Nat → Parse (List String)
  | 0, ts => some ([], ts)
  | fuel + 1, ts =>
    let item : Option (String × List Token) := do
      let (_, ts) ← literal "." ts
      captureKind .Ident ts
    match item with
    | none => some ([], ts)
    | some (name, ts) =>
      match parseTypeTail fuel ts with
      | none => none
      | some (names, ts) => some (name :: names, ts)

/-- An optional literal, `("*")?`. -/
def optionalLiteral (v : String) (ts : List Token) : List Token :=
  match literal v ts with
  | some (_, ts) => ts
  | none => ts

/-- Node `CastExp`. -/
def parseCastExp : Parse CastExp := fun ts => do
  let (_, ts) ← literal "cast" ts
  let (_, ts) ← literal "(" ts
  let (value, ts) ← parseArithExp ts
  let (_, ts) ← literal "," ts
  let (name, ts) ← captureKind .Ident ts
  let (names, ts) ← parseTypeTail ts.length ts
  let ts := optionalLiteral "*" ts
  let ts := optionalLiteral "*" ts
  let (_, ts) ← literal ")" ts
  pure (⟨value, name :: names⟩, ts)

/-- Node `DerefCastExp`. -/
def parseDerefCastExp : Parse DerefCastExp := fun ts => do
  let (_, ts) ← literal "[" ts
  let (castExp, ts) ← parseCastExp ts
  let (_, ts) ← literal "]" ts
  pure (⟨castExp⟩, ts)

/-- Node `IdentifierExp`. -/
def parseIdentifierExp : Parse IdentifierExp := fun ts =>
  match parseDerefCastExp ts with
  | some (e, ts) => some (⟨some e, none⟩, ts)
  | none =>
    match parseCastExp ts with
    | some (e, ts) => some (⟨none, some e⟩, ts)
    | none => none

/-- The call `parser.ParseString("", value)`: the whole text is one
`IdentifierExp`. -/
def parseString (value : String) : Option IdentifierExp :=
  match lex value with
  | none => none
  | some ts =>
    match parseIdentifierExp ts with
    | some (e, []) => some e
    | _ => none

/-- Function `ParseIdentifier`. -/
def ParseIdentifier (h : DerefAddOffset) (value : String) : Except EvalError Reference :=
  match parseString value with
  | none => .error .parseFailure
  | some identifierExp => identifierExp.Evaluate h

/-! ## Hint runtime: scopes, memory, hints -/

/-- What a hint operation returns instead of `nil`: an `error` value, or the
panic of a failed type assertion `x.(*fp.Element)`. -/
inductive HintError where
  | error (msg : String)
  | typeAssertion
  deriving DecidableEq, Repr

/-- A value held by a scope variable (Go `any`): a field element, or a value
of another type. -/
inductive ScopeValue where
  | felt (value : Felt)
  | other (description : String)
  deriving DecidableEq, Repr

/-- One scope: a mapping from variable names to values (Go `map[string]any`). -/
abbrev Scope := String → Option ScopeValue

/-- The empty map `make(map[string]any)`. -/
def Scope.empty : Scope := fun _ => none

/-- Modelled from the spec: the scope manager of package `hinter`, a stack of
scopes; the head of the list is the top scope. -/
structure ScopeManager where
  scopes : List Scope

/-- Modelled from the spec: `ScopeManager.GetVariableValue`, which "looks up
`name` in the top scope only (no fallthrough to enclosing scopes)" and "fails
with variable not found otherwise". -/
def ScopeManager.GetVariableValue (sm : ScopeManager) (name : String) :
    Except HintError ScopeValue :=
  match sm.scopes with
  | [] => .error (.error "variable not found")
  | top :: _ =>
    match top name with
    | some value => .ok value
    | none => .error (.error "variable not found")

/-- Modelled from the spec: `ScopeManager.AssignVariable`, which
"inserts/overwrites `name` in the top scope". -/
def ScopeManager.AssignVariable (sm : ScopeManager) (name : String) (value : ScopeValue) :
    ScopeManager :=
  match sm.scopes with
  | [] => sm
  | top :: rest => ⟨(fun k => if k = name then some value else top k) :: rest⟩

/-- Modelled from the spec: `ScopeManager.EnterScope`, which "pushes a new top
scope seeded with `initial`" and always succeeds. -/
def ScopeManager.EnterScope (sm : ScopeManager) (initial : Scope) : ScopeManager :=
  ⟨initial :: sm.scopes⟩

/-- Modelled from the spec: `ScopeManager.ExitScope`, which "pops the top
scope" and "fails with cannot exit the last scope when only one scope
remains". The manager is returned with the error, unchanged. -/
def ScopeManager.ExitScope (sm : ScopeManager) : Option HintError × ScopeManager :=
  match sm.scopes with
  | _ :: next :: rest => (none, ⟨next :: rest⟩)
  | _ => (some (.error "cannot exit the last scope"), sm)

/-- The type `hinter.HintRunnerContext`, for its field `ScopeManager`. -/
structure HintRunnerContext where
  ScopeManager : ScopeManager

/-- A memory address: segment and offset. -/
structure MemoryAddress where
  SegmentIndex : Nat
  Offset : Nat
  deriving DecidableEq, Repr

/-- A memory value: a field element or an address. -/
inductive MemoryValue where
  | felt (value : Felt)
  | address (value : MemoryAddress)
  deriving DecidableEq, Repr

/-- The function `memory.MemoryValueFromFieldElement`. -/
def MemoryValueFromFieldElement (f : Felt) : MemoryValue := .felt f

/-- Modelled from the spec: the memory of the VM, a partial map from addresses
to values; a cell that was never written holds nothing. -/
abbrev Memory := MemoryAddress → Option MemoryValue

/-- Modelled from the spec: `Memory.WriteToAddress`, the `WriteCell` of the
memory model: "write-once; writing an already-set cell fails". -/
def Memory.WriteToAddress (m : Memory) (address : MemoryAddress) (value : MemoryValue) :
    Except HintError Memory :=
  match m address with
  | none => .ok (fun a => if a = address then some value else m a)
  | some _ => .error (.error "rewriting cell")

/-- The type `VM.VirtualMachine`: memory and the registers `ap` and `fp`. -/
structure VirtualMachine where
  Memory : Memory
  Ap : MemoryAddress
  Fp : MemoryAddress

/-- The interface `hinter.ResOperander`, for its method `GetAddress`. -/
structure ResOperander where
  GetAddress : VirtualMachine → Except HintError MemoryAddress

/-- What running a hint operation gives: the error returned (`none` for
`nil`) and the VM and context as the operation leaves them. -/
structure HintResult where
  err : Option HintError
  vm : VirtualMachine
  ctx : HintRunnerContext

/-- The type `GenericZeroHinter`: a name and an operation. -/
structure GenericZeroHinter where
  Name : String
  Op : VirtualMachine → HintRunnerContext → HintResult

/-- Modelled from the spec: `utils.FeltIsPositive`, the positivity test of the
field element type. The spec fixes that `0` is not positive and that `1` is;
the elements counted positive here are those of `(0, (P - 1) / 2]`. -/
def FeltIsPositive (f : Felt) : Bool := decide (0 < f.val) && decide (f.val ≤ (P - 1) / 2)

/-- Function `newMemcpyContinueCopyingHinter`. The positivity test
`utils.FeltIsPositive` is the parameter `feltIsPositive`. The parameter `n` is
shadowed by the variable read from the scope, as in the source. -/
def newMemcpyContinueCopyingHinter (feltIsPositive : Felt → Bool) (_n dst : ResOperander) :
    GenericZeroHinter where
  Name := "MemcpyContinueCopying"
  Op := fun vm ctx =>
    match ctx.ScopeManager.GetVariableValue "n" with
    | .error err => ⟨some err, vm, ctx⟩
    | .ok (.other _) => ⟨some .typeAssertion, vm, ctx⟩
    | .ok (.felt n) =>
      let ctx1 : HintRunnerContext :=
        ⟨ctx.ScopeManager.AssignVariable "n" (.felt (Felt.Sub n FeltOne))⟩
      match dst.GetAddress vm with
      | .error err => ⟨some err, vm, ctx1⟩
      | .ok continue_copying =>
        let v :=
          if !feltIsPositive n then MemoryValueFromFieldElement FeltOne
          else MemoryValueFromFieldElement FeltZero
        match vm.Memory.WriteToAddress continue_copying v with
        | .error err => ⟨some err, vm, ctx1⟩
        | .ok memory => ⟨none, { vm with Memory := memory }, ctx1⟩

/-- The interface `hintReferenceResolver`, for its method `GetResOperander`. -/
structure hintReferenceResolver where
  GetResOperander : String → Except HintError ResOperander

/-- Function `createMemcpyContinueCopyingHinter`. -/
def createMemcpyContinueCopyingHinter (feltIsPositive : Felt → Bool)
    (resolver : hintReferenceResolver) : Except HintError GenericZeroHinter :=
  match resolver.GetResOperander "n" with
  | .error err => .error err
  | .ok n =>
    match resolver.GetResOperander "output" with
    | .error err => .error err
    | .ok output => .ok (newMemcpyContinueCopyingHinter feltIsPositive n output)

/-- Function `createVMEnterScopeHinter`. -/
def createVMEnterScopeHinter (_resolver : hintReferenceResolver) :
    Except HintError GenericZeroHinter :=
  .ok
    { Name := "VMEnterScope"
      Op := fun vm ctx => ⟨none, vm, ⟨ctx.ScopeManager.EnterScope Scope.empty⟩⟩ }

/-- Function `createVMExitScopeHinter`. -/
def createVMExitScopeHinter (_resolver : hintReferenceResolver) :
    Except HintError GenericZeroHinter :=
  .ok
    { Name := "VMExitScope"
      Op := fun vm ctx =>
        let r := ctx.ScopeManager.ExitScope
        ⟨r.1, vm, ⟨r.2⟩⟩ }

/-! ## SHA-256 hints

The file `zerohint_sha256_test.go` holds the fixtures of the hints
`PackedSha256` and `FinalizeSha256`; the hints themselves and the compression
function they call are modelled from the specification. -/

/-- The round constants of SHA-256. -/
def sha256K : List Nat :=
  [0x428a2f98, 0x71374491, 0xb5c0fbcf, 0xe9b5dba5, 0x3956c25b, 0x59f111f1, 0x923f82a4,
   0xab1c5ed5, 0xd807aa98, 0x12835b01, 0x243185be, 0x550c7dc3, 0x72be5d74, 0x80deb1fe,
   0x9bdc06a7, 0xc19bf174, 0xe49b69c1, 0xefbe4786, 0x0fc19dc6, 0x240ca1cc, 0x2de92c6f,
   0x4a7484aa, 0x5cb0a9dc, 0x76f988da, 0x983e5152, 0xa831c66d, 0xb00327c8, 0xbf597fc7,
   0xc6e00bf3, 0xd5a79147, 0x06ca6351, 0x14292967, 0x27b70a85, 0x2e1b2138, 0x4d2c6dfc,
   0x53380d13, 0x650a7354, 0x766a0abb, 0x81c2c92e, 0x92722c85, 0xa2bfe8a1, 0xa81a664b,
   0xc24b8b70, 0xc76c51a3, 0xd192e819, 0xd6990624, 0xf40e3585, 0x106aa070, 0x19a4c116,
   0x1e376c08, 0x2748774c, 0x34b0bcb5, 0x391c0cb3, 0x4ed8aa4a, 0x5b9cca4f, 0x682e6ff3,
   0x748f82ee, 0x78a5636f, 0x84c87814, 0x8cc70208, 0x90befffa, 0xa4506ceb, 0xbef9a3f7,
   0xc67178f2]

/-- The initial hash state of SHA-256. -/
def sha256IV : List Nat :=
  [0x6a09e667, 0xbb67ae85, 0x3c6ef372, 0xa54ff53a, 0x510e527f, 0x9b05688c, 0x1f83d9ab,
   0x5be0cd19]

/-- Rotation to the right of a 32-bit word. -/
def rotr32 (x n : Nat) : Nat := ((x >>> n) ||| (x <<< (32 - n))) % 4294967296

/-- The function sigma-0 of the message schedule. -/
def smallSigma0 (x : Nat) : Nat := rotr32 x 7 ^^^ rotr32 x 18 ^^^ (x >>> 3)

/-- The function sigma-1 of the message schedule. -/
def smallSigma1 (x : Nat) : Nat := rotr32 x 17 ^^^ rotr32 x 19 ^^^ (x >>> 10)

/-- The function Sigma-0 of the round. -/
def bigSigma0 (x : Nat) : Nat := rotr32 x 2 ^^^ rotr32 x 13 ^^^ rotr32 x 22

/-- The function Sigma-1 of the round. -/
def bigSigma1 (x : Nat) : Nat := rotr32 x 6 ^^^ rotr32 x 11 ^^^ rotr32 x 25

/-- The choice function of the round, on 32-bit words. -/
def ch (x y z : Nat) : Nat := (x &&& y) ^^^ ((4294967295 - x) &&& z)

/-- The majority function of the round. -/
def maj (x y z : Nat) : Nat := (x &&& y) ^^^ (x &&& z) ^^^ (y &&& z)

/-- The message schedule, latest word first, extended by `n` words. -/
def scheduleExtend : Nat → List Nat → List Nat
  | 0, w => w
  | n + 1, w =>
    let next :=
      (smallSigma1 (w.getD 1 0) + w.getD 6 0 + smallSigma0 (w.getD 14 0) + w.getD 15 0)
        % 4294967296
    scheduleExtend n (next :: w)

/-- The 64 words of the message schedule of a block of 16 words. -/
def messageSchedule (block : List Nat) : List Nat :=
  (scheduleExtend 48 block.reverse).reverse

/-- One round of the compression, on the eight working words, with the round
constant and the schedule word of the round. -/
def sha256Round (s : List Nat) (kw : Nat × Nat) : List Nat :=
  match s with
  | [a, b, c, d, e, f, g, h] =>
    let t1 := (h + bigSigma1 e + ch e f g + kw.1 + kw.2) % 4294967296
    let t2 := (bigSigma0 a + maj a b c) % 4294967296
    [(t1 + t2) % 4294967296, a, b, c, (d + t1) % 4294967296, e, f, g]
  | _ => s

/-- Modelled from the spec: "the standard SHA-256 compression function", on a
state of 8 words and a block of 16 words of 32 bits (FIPS 180-4, section
6.2.2). -/
def sha256Compress (state block : List Nat) : List Nat :=
  List.zipWith (fun x y => (x + y) % 4294967296) state
    ((sha256K.zip (messageSchedule block)).foldl sha256Round state)

/-- The address `i` cells after `a` in its segment. -/
def MemoryAddress.AddOffset (a : MemoryAddress) (i : Nat) : MemoryAddress :=
  ⟨a.SegmentIndex, a.Offset + i⟩

/-- Modelled from the spec: `ReadCell` of the memory model; a cell that holds
nothing cannot be read. -/
def Memory.ReadFromAddress (m : Memory) (address : MemoryAddress) :
    Except HintError MemoryValue :=
  match m address with
  | some value => .ok value
  | none => .error (.error "reading unknown cell")

/-- Modelled from the spec: the address held in an operand, the value of the
cell the operand stands for when that value is an address. -/
def ResolveAsAddress (vm : VirtualMachine) (op : ResOperander) :
    Except HintError MemoryAddress :=
  match op.GetAddress vm with
  | .error err => .error err
  | .ok cell =>
    match vm.Memory.ReadFromAddress cell with
    | .error err => .error err
    | .ok (.address a) => .ok a
    | .ok (.felt _) => .error (.error "expected an address")

/-- Modelled from the spec: a window of `n` consecutive cells read as words of
32 bits, from the address `a` on. -/
def Memory.readWords (m : Memory) : MemoryAddress → Nat → Except HintError (List Nat)
  | _, 0 => .ok []
  | a, n + 1 =>
    match m.ReadFromAddress a with
    | .ok (.felt f) =>
      if f.val < 4294967296 then
        match Memory.readWords m (a.AddOffset 1) n with
        | .error err => .error err
        | .ok ws => .ok (f.val :: ws)
      else .error (.error "expected a word of 32 bits")
    | .ok (.address _) => .error (.error "expected a field element")
    | .error err => .error err

/-- Modelled from the spec: field elements written "into consecutive output
cells", from the address `a` on; a write that fails stops the run and the
writes before it stay. -/
def Memory.writeFelts (m : Memory) : MemoryAddress → List Felt → Option HintError × Memory
  | _, [] => (none, m)
  | a, f :: fs =>
    match m.WriteToAddress a (MemoryValueFromFieldElement f) with
    | .error err => (some err, m)
    | .ok m1 => Memory.writeFelts m1 (a.AddOffset 1) fs

/-- The field element of a word of 32 bits. -/
def feltOfWord (w : Nat) : Felt := Felt.SetBigInt (w : Int)

/-- Modelled from the spec: the hint `PackedSha256` ("packed compression"),
which reads the 16 input words at the address held in `sha256_start`, runs the
compression function on the initial state and these words, and writes the 8
words of the result at the address held in `output`. -/
def newPackedSha256Hint (sha256Start output : ResOperander) : GenericZeroHinter where
  Name := "PackedSha256"
  Op := fun vm ctx =>
    match ResolveAsAddress vm sha256Start with
    | .error err => ⟨some err, vm, ctx⟩
    | .ok start =>
      match vm.Memory.readWords start 16 with
      | .error err => ⟨some err, vm, ctx⟩
      | .ok w =>
        match ResolveAsAddress vm output with
        | .error err => ⟨some err, vm, ctx⟩
        | .ok out =>
          let r := vm.Memory.writeFelts out ((sha256Compress sha256IV w).map feltOfWord)
          ⟨r.1, { vm with Memory := r.2 }, ctx⟩

/-- The block of 16 words that are all zero. -/
def zeroBlock : List Nat := List.replicate 16 0

/-- The pattern of 32 words of the padding: the zero block, the initial state,
and the compression of the zero block under the initial state. -/
def paddingPattern : List Nat := zeroBlock ++ sha256IV ++ sha256Compress sha256IV zeroBlock

/-- The padding of `blocks` repetitions of the pattern. -/
def sha256Padding (blocks : Nat) : List Nat := (List.replicate blocks paddingPattern).flatten

/-- Modelled from the spec: the number of blocks the hint `FinalizeSha256`
pads. The spec speaks of "all remaining blocks" and gives no number; the test
of the repository builds the hint from the one operand `sha256_ptr_end` and
expects 192 cells, that is 6 blocks of 32 words. -/
def finalizeSha256Blocks : Nat := 6

/-- Modelled from the spec: the hint `FinalizeSha256`, built from the one
operand `sha256_ptr_end`, which writes the padding of `finalizeSha256Blocks`
blocks at the address held in that operand. -/
def newFinalizeSha256Hint (sha256PtrEnd : ResOperander) : GenericZeroHinter where
  Name := "FinalizeSha256"
  Op := fun vm ctx =>
    match ResolveAsAddress vm sha256PtrEnd with
    | .error err => ⟨some err, vm, ctx⟩
    | .ok out =>
      let r := vm.Memory.writeFelts out ((sha256Padding finalizeSha256Blocks).map feltOfWord)
      ⟨r.1, { vm with Memory := r.2 }, ctx⟩

/-- The one block of the padded message `abc`, the example of FIPS 180-4. -/
def abcBlock : List Nat := [0x61626380] ++ List.replicate 14 0 ++ [24]

/-- The values the test `TestZeroHintSha256/Sha256Chunk` expects: the
compression of the all-zero block under the all-zero state. -/
def sha256ChunkExpected : List Nat :=
  [2091193876, 1113340840, 3461668143, 3254913767, 3068490961, 2551409935, 2927503052,
   3205228454]

/-- The values the test `TestZeroHintSha256/PackedSha256` expects at the 8
cells from the address held in `output`. -/
def packedSha256Expected : List Nat :=
  [3663108286, 398046313, 1647531929, 2006957770, 2363872401, 3235013187, 3137272298,
   406301144]

/-- The values the test `TestZeroHintSha256/FinalizeSha256` expects at the 192
cells from the address held in `sha256_ptr_end`. -/
def finalizeSha256Expected : List Nat :=
  [0, 0, 0, 0, 0, 0, 0, 0,
   0, 0, 0, 0, 0, 0, 0, 0,
   1779033703, 3144134277, 1013904242, 2773480762, 1359893119, 2600822924, 528734635, 1541459225,
   3663108286, 398046313, 1647531929, 2006957770, 2363872401, 3235013187, 3137272298, 406301144,
   0, 0, 0, 0, 0, 0, 0, 0,
   0, 0, 0, 0, 0, 0, 0, 0,
   1779033703, 3144134277, 1013904242, 2773480762, 1359893119, 2600822924, 528734635, 1541459225,
   3663108286, 398046313, 1647531929, 2006957770, 2363872401, 3235013187, 3137272298, 406301144,
   0, 0, 0, 0, 0, 0, 0, 0,
   0, 0, 0, 0, 0, 0, 0, 0,
   1779033703, 3144134277, 1013904242, 2773480762, 1359893119, 2600822924, 528734635, 1541459225,
   3663108286, 398046313, 1647531929, 2006957770, 2363872401, 3235013187, 3137272298, 406301144,
   0, 0, 0, 0, 0, 0, 0, 0,
   0, 0, 0, 0, 0, 0, 0, 0,
   1779033703, 3144134277, 1013904242, 2773480762, 1359893119, 2600822924, 528734635, 1541459225,
   3663108286, 398046313, 1647531929, 2006957770, 2363872401, 3235013187, 3137272298, 406301144,
   0, 0, 0, 0, 0, 0, 0, 0,
   0, 0, 0, 0, 0, 0, 0, 0,
   1779033703, 3144134277, 1013904242, 2773480762, 1359893119, 2600822924, 528734635, 1541459225,
   3663108286, 398046313, 1647531929, 2006957770, 2363872401, 3235013187, 3137272298, 406301144,
   0, 0, 0, 0, 0, 0, 0, 0,
   0, 0, 0, 0, 0, 0, 0, 0,
   1779033703, 3144134277, 1013904242, 2773480762, 1359893119, 2600822924, 528734635, 1541459225,
   3663108286, 398046313, 1647531929, 2006957770, 2363872401, 3235013187, 3137272298, 406301144]

/-! ## The syntax trees of the forms the theorems speak of -/

/-- The reference `ap + k` or `fp + k`, by the name of its register. -/
def cellRef (register : String) (k : Int) : Reference :=
  if register = "ap" then .ApCellRef k else .FpCellRef k

/-- The offset an operator and a literal of value `v` denote: `+v` for `+`,
`-v` for `-`. -/
def signedOffset (operator : String) (v : Int) : Int :=
  if operator = "-" then -v else v

/-- An integer of the `int16` range. -/
def inInt16 (k : Int) : Prop := -32768 ≤ k ∧ k ≤ 32767

instance instDecidableInInt16 (k : Int) : Decidable (inInt16 k) := by
  unfold inInt16
  infer_instance

/-- The tree of an expression that is a deref. -/
def Expression.ofDeref (d : Zero.DerefExp) : Expression := ⟨none, some d, none, none⟩

/-- The tree of an expression that is a double deref. -/
def Expression.ofDDeref (d : Zero.DDerefExp) : Expression := ⟨some d, none, none, none⟩

/-- The tree of an expression that is a cell reference. -/
def Expression.ofCellRef (c : Zero.CellRefExp) : Expression := ⟨none, none, some c, none⟩

/-- The tree of an expression that is an integer literal. -/
def Expression.ofInt (o : OffsetExp) : Expression := ⟨none, none, none, some o⟩

/-- The tree of a term that is one expression. -/
def TermExp.ofExp (e : Expression) : TermExp := ⟨none, some e⟩

/-- The tree of a term that is a product. -/
def TermExp.ofProd (p : Zero.ProdExp) : TermExp := ⟨some p, none⟩

/-- The tree of an arithmetic expression with one term and no additive term. -/
def ArithExp.single (t : Zero.TermExp) : ArithExp := ⟨t, []⟩

/-- The tree of the deref `[register operator offset]`. -/
def DerefExp.ofRegisterOffset (register operator : String) (offset : OffsetExp) : DerefExp :=
  ⟨⟨some ⟨register, operator, offset⟩, ""⟩⟩

/-- The tree of the double deref `[deref operator offset]`. -/
def DDerefExp.ofDerefOffset (deref : Zero.DerefExp) (operator : String) (offset : OffsetExp) :
    DDerefExp :=
  ⟨some ⟨deref, operator, offset⟩, none⟩

/-- The tree of the bare double deref `[deref]`. -/
def DDerefExp.ofDeref (deref : Zero.DerefExp) : DDerefExp := ⟨none, some deref⟩

/-- The tree of the bracketed cast `[cast(value, castType)]`. -/
def DerefCastExp.ofValue (value : ArithExp) (castType : List String) : DerefCastExp :=
  ⟨⟨value, castType⟩⟩

/-- The tree of an additive term `operator literal`. -/
def AddExp.ofInt (operator : String) (o : OffsetExp) : AddExp :=
  ⟨operator, TermExp.ofExp (Expression.ofInt o)⟩

/-- An additive term that is an integer literal: its operator, its literal
and the value of the literal. -/
structure LiteralTerm where
  operator : String
  literal : OffsetExp
  value : Int

/-- The tree of a literal additive term. -/
def LiteralTerm.toAddExp (t : LiteralTerm) : AddExp := AddExp.ofInt t.operator t.literal

/-- The offset a literal additive term stands for. -/
def LiteralTerm.offset (t : LiteralTerm) : Int := signedOffset t.operator t.value

/-- The sum of the offsets of literal additive terms. -/
def offsetSum (ts : List LiteralTerm) : Int := (ts.map LiteralTerm.offset).sum

/-- The tree of the offset text of an integer `k`: its decimal numeral when
`k` is not negative, the parenthesised form `(-N)` with `N` the numeral of
`|k|` when it is. -/
def OffsetExp.numeral (k : Int) : OffsetExp :=
  if 0 ≤ k then ⟨Nat.repr k.toNat, ""⟩ else ⟨"", Nat.repr k.natAbs⟩

/-! ## Concrete inputs used by the closed statements -/

/-- An address in segment 1. -/
def cellAt (offset : Nat) : MemoryAddress := ⟨1, offset⟩

/-- A VM whose memory holds nothing yet. -/
def emptyVM : VirtualMachine := ⟨fun _ => none, cellAt 0, cellAt 0⟩

/-- An operand whose address is `a` in every VM. -/
def operandAt (a : MemoryAddress) : ResOperander := ⟨fun _ => .ok a⟩

/-- A scope holding the field element `v` under the name `n` and nothing else. -/
def scopeWithN (v : Felt) : Scope := fun k => if k = "n" then some (.felt v) else none

/-- A context whose only scope is `scopeWithN v`. -/
def contextWithN (v : Felt) : HintRunnerContext := ⟨⟨[scopeWithN v]⟩⟩

/-- A memory holding the values `vals` at the cells from `base` on in segment
1 and nothing elsewhere: the operands of a hint test, laid out from `ap`. -/
def operandMemory (base : Nat) (vals : List MemoryValue) : Memory := fun a =>
  if a.SegmentIndex = 1 ∧ base ≤ a.Offset then vals.get? (a.Offset - base) else none

/-- The VM of the test `PackedSha256`: `ap` at cell 4 of segment 1, then the
operands `sha256_start = (1, 6)`, `output = (1, 22)` and 16 input words equal
to zero. -/
def packedSha256TestVM : VirtualMachine :=
  ⟨operandMemory 4
      ([.address (cellAt 6), .address (cellAt 22)] ++ List.replicate 16 (.felt 0)),
    cellAt 4, cellAt 4⟩

/-- The VM of the test `FinalizeSha256`: `ap` at cell 4 of segment 1, then the
operand `sha256_ptr_end = (1, 5)`. -/
def finalizeSha256TestVM : VirtualMachine :=
  ⟨operandMemory 4 [.address (cellAt 5)], cellAt 4, cellAt 4⟩

/-- The left-nested chain `BinaryOp(Add, ... BinaryOp(Add, v0, v1) ..., vn)`. -/
def addChain (v0 : Reference) (vals : List Reference) : Reference :=
  vals.foldl (fun acc v => .BinaryOp .Add acc v) v0

/-! ## Theorems: MemcpyContinueCopying -/

/-- The hint operation, once the lookup of `n` has given the field element
`v`, as a function of what the address resolution and the write give. -/
theorem memcpy_op_of_lookup (feltIsPositive : Felt → Bool) (nOp dst : ResOperander)
    (vm : VirtualMachine) (ctx : HintRunnerContext) (top : Scope) (rest : List Scope)
    (v : Felt) (hscopes : ctx.ScopeManager.scopes = top :: rest)
    (hn : top "n" = some (.felt v)) :
    (newMemcpyContinueCopyingHinter feltIsPositive nOp dst).Op vm ctx =
      match dst.GetAddress vm with
      | .error err =>
        ⟨some err, vm, ⟨ctx.ScopeManager.AssignVariable "n" (.felt (Felt.Sub v FeltOne))⟩⟩
      | .ok a =>
        match vm.Memory.WriteToAddress a
            (if !feltIsPositive v then MemoryValueFromFieldElement FeltOne
              else MemoryValueFromFieldElement FeltZero) with
        | .error err =>
          ⟨some err, vm, ⟨ctx.ScopeManager.AssignVariable "n" (.felt (Felt.Sub v FeltOne))⟩⟩
        | .ok memory =>
          ⟨none, { vm with Memory := memory },
            ⟨ctx.ScopeManager.AssignVariable "n" (.felt (Felt.Sub v FeltOne))⟩⟩ := by
  simp only [newMemcpyContinueCopyingHinter, ScopeManager.GetVariableValue, hscopes, hn]

/-- A successful write leaves the written value in the cell. -/
theorem writeToAddress_read (m m' : Memory) (a : MemoryAddress) (x : MemoryValue)
    (h : m.WriteToAddress a x = .ok m') : m' a = some x := by
  unfold Memory.WriteToAddress at h
  split at h
  · cases h
    simp
  · cases h

/-- The cell the hint writes, after a successful run: `1` when the value of
`n` read from the scope is not positive, `0` when it is. -/
theorem memcpy_output_cell (feltIsPositive : Felt → Bool) (nOp dst : ResOperander)
    (vm : VirtualMachine) (ctx : HintRunnerContext) (top : Scope) (rest : List Scope)
    (v : Felt) (a : MemoryAddress) (hscopes : ctx.ScopeManager.scopes = top :: rest)
    (hn : top "n" = some (.felt v)) (hdst : dst.GetAddress vm = .ok a)
    (hok : ((newMemcpyContinueCopyingHinter feltIsPositive nOp dst).Op vm ctx).err = none) :
    ((newMemcpyContinueCopyingHinter feltIsPositive nOp dst).Op vm ctx).vm.Memory a =
      some (.felt (if feltIsPositive v then 0 else 1)) := by
  rw [memcpy_op_of_lookup feltIsPositive nOp dst vm ctx top rest v hscopes hn] at hok ⊢
  rw [hdst] at hok ⊢
  simp only at hok ⊢
  cases hw : vm.Memory.WriteToAddress a
      (if !feltIsPositive v then MemoryValueFromFieldElement FeltOne
        else MemoryValueFromFieldElement FeltZero) with
  | error err => rw [hw] at hok; simp at hok
  | ok memory =>
    show memory a = _
    rw [writeToAddress_read _ _ _ _ hw]
    cases feltIsPositive v <;> simp [MemoryValueFromFieldElement, FeltOne, FeltZero]

/-- C1, as the spec states it, fails at `n = 1`: the run succeeds, the
decremented value `0` is not positive, and the output cell holds `0`, not `1`. -/
theorem memcpy_spec_polarity_fails_at_one :
    ((newMemcpyContinueCopyingHinter FeltIsPositive (operandAt (cellAt 7))
        (operandAt (cellAt 3))).Op emptyVM (contextWithN 1)).err = none ∧
    FeltIsPositive (Felt.Sub 1 FeltOne) = false ∧
    ((newMemcpyContinueCopyingHinter FeltIsPositive (operandAt (cellAt 7))
        (operandAt (cellAt 3))).Op emptyVM (contextWithN 1)).vm.Memory (cellAt 3) =
      some (.felt 0) ∧
    ((newMemcpyContinueCopyingHinter FeltIsPositive (operandAt (cellAt 7))
        (operandAt (cellAt 3))).Op emptyVM (contextWithN 1)).vm.Memory (cellAt 3) ≠
      some (.felt 1) := by
  refine ⟨rfl, by decide, rfl, ?_⟩
  intro h
  have h0 : ((newMemcpyContinueCopyingHinter FeltIsPositive (operandAt (cellAt 7))
        (operandAt (cellAt 3))).Op emptyVM (contextWithN 1)).vm.Memory (cellAt 3) =
      some (.felt 0) := rfl
  rw [h0] at h
  exact absurd h (by decide)

/-- C1, amended: after a successful run the output cell holds the field
element `0` or `1`; and where `n` and its decremented value `n - 1` differ in
positivity (as at `n = 1`), it holds `1` if the decremented value is positive
and `0` if it is not. -/
theorem memcpy_output_where_positivity_changes (feltIsPositive : Felt → Bool)
    (nOp dst : ResOperander) (vm : VirtualMachine) (ctx : HintRunnerContext) (top : Scope)
    (rest : List Scope) (v : Felt) (a : MemoryAddress)
    (hscopes : ctx.ScopeManager.scopes = top :: rest) (hn : top "n" = some (.felt v))
    (hdst : dst.GetAddress vm = .ok a)
    (hok : ((newMemcpyContinueCopyingHinter feltIsPositive nOp dst).Op vm ctx).err = none) :
    (((newMemcpyContinueCopyingHinter feltIsPositive nOp dst).Op vm ctx).vm.Memory a =
        some (.felt 0) ∨
      ((newMemcpyContinueCopyingHinter feltIsPositive nOp dst).Op vm ctx).vm.Memory a =
        some (.felt 1)) ∧
    (feltIsPositive v ≠ feltIsPositive (Felt.Sub v FeltOne) →
      ((newMemcpyContinueCopyingHinter feltIsPositive nOp dst).Op vm ctx).vm.Memory a =
        some (.felt (if feltIsPositive (Felt.Sub v FeltOne) then 1 else 0))) := by
  have hcell := memcpy_output_cell feltIsPositive nOp dst vm ctx top rest v a hscopes hn hdst hok
  rw [hcell]
  constructor
  · cases feltIsPositive v <;> simp
  · intro hne
    cases h1 : feltIsPositive v <;> cases h2 : feltIsPositive (Felt.Sub v FeltOne) <;>
      simp_all

/-- The amended C1 at `n = 1`, whose decremented value is `0`: the hypotheses
hold, positivity changes between `1` and `0`, and the cell holds `0`. -/
theorem memcpy_output_where_positivity_changes_witness :
    FeltIsPositive 1 ≠ FeltIsPositive (Felt.Sub 1 FeltOne) ∧
    ((newMemcpyContinueCopyingHinter FeltIsPositive (operandAt (cellAt 7))
        (operandAt (cellAt 3))).Op emptyVM (contextWithN 1)).vm.Memory (cellAt 3) =
      some (.felt (if FeltIsPositive (Felt.Sub 1 FeltOne) then 1 else 0)) :=
  ⟨by decide,
    (memcpy_output_where_positivity_changes FeltIsPositive (operandAt (cellAt 7))
      (operandAt (cellAt 3)) emptyVM (contextWithN 1) (scopeWithN 1) [] 1 (cellAt 3) rfl rfl rfl
      rfl).2 (by decide)⟩

/-- C2, evaluated at `n = 2`: the run succeeds, the scope then holds `n = 1`,
which is positive, and the output cell holds `0` where the comment of the
source (`1 if n > 0 else 0`, after `n -= 1`) asks for `1`. -/
theorem memcpy_at_two :
    ((newMemcpyContinueCopyingHinter FeltIsPositive (operandAt (cellAt 7))
        (operandAt (cellAt 3))).Op emptyVM (contextWithN 2)).err = none ∧
    ((newMemcpyContinueCopyingHinter FeltIsPositive (operandAt (cellAt 7))
        (operandAt (cellAt 3))).Op emptyVM (contextWithN 2)).ctx.ScopeManager.GetVariableValue
      "n" = .ok (.felt 1) ∧
    FeltIsPositive 1 = true ∧
    ((newMemcpyContinueCopyingHinter FeltIsPositive (operandAt (cellAt 7))
        (operandAt (cellAt 3))).Op emptyVM (contextWithN 2)).vm.Memory (cellAt 3) =
      some (.felt 0) := by
  refine ⟨rfl, rfl, by decide, rfl⟩

/-- The context the hint leaves, once the lookup of `n` has given the field
element `v`: the scope manager after the assignment of `v - 1` to `n`,
whatever the address resolution and the write give. -/
theorem memcpy_ctx_of_lookup (feltIsPositive : Felt → Bool) (nOp dst : ResOperander)
    (vm : VirtualMachine) (ctx : HintRunnerContext) (top : Scope) (rest : List Scope)
    (v : Felt) (hscopes : ctx.ScopeManager.scopes = top :: rest)
    (hn : top "n" = some (.felt v)) :
    ((newMemcpyContinueCopyingHinter feltIsPositive nOp dst).Op vm ctx).ctx.ScopeManager =
      ctx.ScopeManager.AssignVariable "n" (.felt (Felt.Sub v FeltOne)) := by
  rw [memcpy_op_of_lookup feltIsPositive nOp dst vm ctx top rest v hscopes hn]
  cases dst.GetAddress vm with
  | error err => rfl
  | ok a =>
    simp only
    cases vm.Memory.WriteToAddress a
        (if !feltIsPositive v then MemoryValueFromFieldElement FeltOne
          else MemoryValueFromFieldElement FeltZero) with
    | error err => rfl
    | ok memory => rfl

/-- C3: when the top scope maps `n` to the field element `v`, the hint leaves
a scope stack whose top scope maps `n` to `v - 1` taken in the field (`1`
gives `0`, `0` gives `P - 1`), whose top scope is otherwise as before, whose
lower scopes are as before, and which has as many scopes as before; this
whatever the later steps of the operation give. -/
theorem memcpy_scope_update_and_frame (feltIsPositive : Felt → Bool) (nOp dst : ResOperander)
    (vm : VirtualMachine) (ctx : HintRunnerContext) (top : Scope) (rest : List Scope)
    (v : Felt) (hscopes : ctx.ScopeManager.scopes = top :: rest)
    (hn : top "n" = some (.felt v)) :
    (∃ top' : Scope,
      ((newMemcpyContinueCopyingHinter feltIsPositive nOp dst).Op vm ctx).ctx.ScopeManager.scopes
          = top' :: rest ∧
        top' "n" = some (.felt (v - 1)) ∧
        ∀ name : String, name ≠ "n" → top' name = top name) ∧
    ((newMemcpyContinueCopyingHinter feltIsPositive nOp dst).Op vm
        ctx).ctx.ScopeManager.scopes.length = ctx.ScopeManager.scopes.length ∧
    (1 : Felt) - 1 = 0 ∧ ((0 : Felt) - 1).val = P - 1 := by
  rw [memcpy_ctx_of_lookup feltIsPositive nOp dst vm ctx top rest v hscopes hn]
  refine ⟨⟨fun k => if k = "n" then some (.felt (v - 1)) else top k, ?_, ?_, ?_⟩, ?_, ?_, ?_⟩
  · simp [ScopeManager.AssignVariable, hscopes, Felt.Sub, FeltOne]
  · simp
  · intro name hname
    simp [hname]
  · simp [ScopeManager.AssignVariable, hscopes]
  · decide
  · decide

/-- C3 at a two-scope stack whose top scope holds `n = 1` and `m = 5`: after
the hint the stack is the top scope with `n = 0` and `m = 5` over the same
lower scope. -/
theorem memcpy_scope_update_and_frame_witness :
    ∃ top' : Scope,
      ((newMemcpyContinueCopyingHinter FeltIsPositive (operandAt (cellAt 7))
          (operandAt (cellAt 3))).Op emptyVM
          ⟨⟨[fun k => if k = "m" then some (.felt 5) else scopeWithN 1 k,
              scopeWithN 9]⟩⟩).ctx.ScopeManager.scopes = top' :: [scopeWithN 9] ∧
        top' "n" = some (.felt ((1 : Felt) - 1)) ∧
        ∀ name : String, name ≠ "n" →
          top' name = (fun k => if k = "m" then some (.felt 5) else scopeWithN 1 k) name :=
  (memcpy_scope_update_and_frame FeltIsPositive (operandAt (cellAt 7)) (operandAt (cellAt 3))
    emptyVM ⟨⟨[fun k => if k = "m" then some (.felt 5) else scopeWithN 1 k, scopeWithN 9]⟩⟩
    (fun k => if k = "m" then some (.felt 5) else scopeWithN 1 k) [scopeWithN 9] 1 rfl rfl).1

/-! ## Theorems: the bracketed cast -/

/-- With no additive term an arithmetic expression has the value of its term,
on either path of `ArithExp.Evaluate`. -/
theorem ArithExp.evaluate_single (h : DerefAddOffset) (t : Zero.TermExp) :
    (ArithExp.single t).Evaluate h = t.Evaluate := by
  unfold ArithExp.Evaluate ArithExp.single
  cases ht : t.Evaluate with
  | error err => rfl
  | ok leftExp =>
    simp only
    split <;> rfl

/-- The value of `EvaluateRegister` on a register of the grammar. -/
theorem evaluateRegister_eq (register : String) (k : Int)
    (hreg : register = "ap" ∨ register = "fp") :
    EvaluateRegister register k = .ok (cellRef register k) := by
  rcases hreg with rfl | rfl <;> rfl

/-- An `int16` operation is exact when its exact result is an `int16`. -/
theorem wrap16_of_inInt16 (k : Int) (hk : inInt16 k) : wrap16 k = k := by
  unfold inInt16 at hk
  unfold wrap16
  omega

/-- The offset the source computes from an operator and a narrowed literal. -/
theorem offset_eq_signedOffset (operator : String) (v : Int)
    (hk : inInt16 (signedOffset operator v)) :
    (if operator = "-" then wrap16 (-v) else v) = signedOffset operator v := by
  unfold signedOffset at hk ⊢
  split
  · rename_i hop
    rw [if_pos hop] at hk
    exact wrap16_of_inInt16 _ hk
  · rfl

/-- The value of `RegisterOffset.Evaluate` on `register operator literal` with a literal
and an offset of the `int16` range. -/
theorem RegisterOffset.evaluate_eq (register operator : String) (off : OffsetExp) (v : Int)
    (hreg : register = "ap" ∨ register = "fp") (hv : off.Evaluate = .ok v)
    (hv16 : inInt16 v) (hk16 : inInt16 (signedOffset operator v)) :
    (RegisterOffset.mk register operator off).Evaluate =
      .ok (cellRef register (signedOffset operator v)) := by
  have hn : Int16FromBigInt v = some v := by
    unfold Int16FromBigInt
    exact if_pos hv16
  simp only [RegisterOffset.Evaluate, hv, hn, offset_eq_signedOffset operator v hk16]
  exact evaluateRegister_eq register _ hreg

/-- The value of `DerefExp.Evaluate` on `[register operator literal]`. -/
theorem DerefExp.evaluate_ofRegisterOffset (register operator : String) (off : OffsetExp)
    (v : Int) (hreg : register = "ap" ∨ register = "fp") (hv : off.Evaluate = .ok v)
    (hv16 : inInt16 v) (hk16 : inInt16 (signedOffset operator v)) :
    (DerefExp.ofRegisterOffset register operator off).Evaluate =
      .ok (.Deref (cellRef register (signedOffset operator v))) := by
  simp only [DerefExp.Evaluate, DerefExp.ofRegisterOffset, CellRefSimple.Evaluate,
    RegisterOffset.evaluate_eq register operator off v hreg hv hv16 hk16]

/-- C4, as stated, fails: `ParseIdentifier("[cast([fp-2], felt*)]")` returns
the double deref `DoubleDeref(Deref(FpCellRef(-2)), 0)`, not
`Deref(FpCellRef(-2))`. -/
theorem parseIdentifier_bracketed_deref_is_not_deref :
    ParseIdentifier none "[cast([fp-2], felt*)]" =
      .ok (.DoubleDeref (.Deref (.FpCellRef (-2))) 0) ∧
    ParseIdentifier none "[cast([fp-2], felt*)]" ≠ .ok (.Deref (.FpCellRef (-2))) := by
  have h0 : ParseIdentifier none "[cast([fp-2], felt*)]" =
      .ok (.DoubleDeref (.Deref (.FpCellRef (-2))) 0) := rfl
  refine ⟨h0, ?_⟩
  intro h
  rw [h0] at h
  cases h

/-- C4, amended: a bracketed cast whose inner expression is the single deref
`[r o K]` (register `ap` or `fp`, operator `+` or `-`, literal and offset of
the `int16` range) evaluates to `DoubleDeref(Deref(CellRef(r, k)), 0)`, `k`
the signed offset; and `ParseIdentifier("[cast([fp-2], felt*)]")` returns
`DoubleDeref(Deref(FpCellRef(-2)), 0)`. -/
theorem derefCast_of_single_deref (h : DerefAddOffset) (register operator : String)
    (off : OffsetExp) (v : Int) (castType : List String)
    (hreg : register = "ap" ∨ register = "fp") (hv : off.Evaluate = .ok v)
    (hv16 : inInt16 v) (hk16 : inInt16 (signedOffset operator v)) :
    (DerefCastExp.ofValue
        (ArithExp.single (TermExp.ofExp (Expression.ofDeref
          (DerefExp.ofRegisterOffset register operator off)))) castType).Evaluate h =
      .ok (.DoubleDeref (.Deref (cellRef register (signedOffset operator v))) 0) ∧
    ParseIdentifier h "[cast([fp-2], felt*)]" =
      .ok (.DoubleDeref (.Deref (.FpCellRef (-2))) 0) := by
  refine ⟨?_, ?_⟩
  · have hd := DerefExp.evaluate_ofRegisterOffset register operator off v hreg hv hv16 hk16
    have ht : (TermExp.ofExp (Expression.ofDeref
        (DerefExp.ofRegisterOffset register operator off))).Evaluate =
        .ok (.Deref (cellRef register (signedOffset operator v))) := by
      simp only [TermExp.Evaluate, TermExp.ofExp, Expression.Evaluate, Expression.ofDeref, hd]
    simp only [DerefCastExp.Evaluate, DerefCastExp.ofValue, ArithExp.evaluate_single, ht,
      DerefCastExp.reinterpret]
  · cases h <;> rfl

/-- The amended C4 at the tree of `[cast([fp-2], felt*)]`. -/
theorem derefCast_of_single_deref_witness :
    (DerefCastExp.ofValue
        (ArithExp.single (TermExp.ofExp (Expression.ofDeref
          (DerefExp.ofRegisterOffset "fp" "-" ⟨"2", ""⟩)))) ["felt"]).Evaluate none =
      .ok (.DoubleDeref (.Deref (cellRef "fp" (signedOffset "-" 2))) 0) :=
  (derefCast_of_single_deref none "fp" "-" ⟨"2", ""⟩ 2 ["felt"] (Or.inr rfl) rfl
    (by decide) (by decide)).1

/-- The value of `DDerefExp.Evaluate` on `[[register oa A] ok K]` with literals and offsets
of the `int16` range. -/
theorem DDerefExp.evaluate_ofDerefOffset (register oa ok : String) (offa offk : OffsetExp)
    (va vk : Int) (hreg : register = "ap" ∨ register = "fp")
    (hva : offa.Evaluate = .ok va) (hva16 : inInt16 va)
    (ha16 : inInt16 (signedOffset oa va))
    (hvk : offk.Evaluate = .ok vk) (hvk16 : inInt16 vk)
    (hk16 : inInt16 (signedOffset ok vk)) :
    (DDerefExp.ofDerefOffset (DerefExp.ofRegisterOffset register oa offa) ok offk).Evaluate =
      .ok (.DoubleDeref (.Deref (cellRef register (signedOffset oa va)))
        (signedOffset ok vk)) := by
  have hn : Int16FromBigInt vk = some vk := by
    unfold Int16FromBigInt
    exact if_pos hvk16
  simp only [DDerefExp.Evaluate, DDerefExp.ofDerefOffset,
    DerefExp.evaluate_ofRegisterOffset register oa offa va hreg hva hva16 ha16, hvk, hn,
    offset_eq_signedOffset ok vk hk16]

/-- C5, as stated, fails: `ParseIdentifier("[cast([[fp-2]+3], felt*)]")` does
not return `DoubleDeref(Deref(FpCellRef(-2)), 3)`; it returns the error
"unexpected deref expression". -/
theorem parseIdentifier_bracketed_double_deref_is_error :
    ParseIdentifier none "[cast([[fp-2]+3], felt*)]" =
      .error (.error "unexpected deref expression") ∧
    ParseIdentifier none "[cast([[fp-2]+3], felt*)]" ≠
      .ok (.DoubleDeref (.Deref (.FpCellRef (-2))) 3) := by
  have h0 : ParseIdentifier none "[cast([[fp-2]+3], felt*)]" =
      .error (.error "unexpected deref expression") := rfl
  refine ⟨h0, ?_⟩
  intro h
  rw [h0] at h
  cases h

/-- C5, amended: a bracketed cast whose inner expression is the double deref
`[[r oa A] ok K]` (register `ap` or `fp`, literals and offsets of the `int16`
range) evaluates to the error "unexpected deref expression": its inner
expression has the value `DoubleDeref(Deref(CellRef(r, a)), k)`, a shape the
bracketed cast does not take; and
`ParseIdentifier("[cast([[fp-2]+3], felt*)]")` returns that error. -/
theorem derefCast_of_double_deref (h : DerefAddOffset) (register oa ok : String)
    (offa offk : OffsetExp) (va vk : Int) (castType : List String)
    (hreg : register = "ap" ∨ register = "fp")
    (hva : offa.Evaluate = .ok va) (hva16 : inInt16 va)
    (ha16 : inInt16 (signedOffset oa va))
    (hvk : offk.Evaluate = .ok vk) (hvk16 : inInt16 vk)
    (hk16 : inInt16 (signedOffset ok vk)) :
    (ArithExp.single (TermExp.ofExp (Expression.ofDDeref
        (DDerefExp.ofDerefOffset (DerefExp.ofRegisterOffset register oa offa) ok
          offk)))).Evaluate h =
      .ok (.DoubleDeref (.Deref (cellRef register (signedOffset oa va)))
        (signedOffset ok vk)) ∧
    (DerefCastExp.ofValue
        (ArithExp.single (TermExp.ofExp (Expression.ofDDeref
          (DDerefExp.ofDerefOffset (DerefExp.ofRegisterOffset register oa offa) ok offk))))
        castType).Evaluate h = .error (.error "unexpected deref expression") ∧
    ParseIdentifier h "[cast([[fp-2]+3], felt*)]" =
      .error (.error "unexpected deref expression") := by
  have hd := DDerefExp.evaluate_ofDerefOffset register oa ok offa offk va vk hreg hva hva16
    ha16 hvk hvk16 hk16
  have ht : (TermExp.ofExp (Expression.ofDDeref
      (DDerefExp.ofDerefOffset (DerefExp.ofRegisterOffset register oa offa) ok
        offk))).Evaluate =
      .ok (.DoubleDeref (.Deref (cellRef register (signedOffset oa va)))
        (signedOffset ok vk)) := by
    simp only [TermExp.Evaluate, TermExp.ofExp, Expression.Evaluate, Expression.ofDDeref, hd]
  refine ⟨?_, ?_, ?_⟩
  · rw [ArithExp.evaluate_single, ht]
  · simp only [DerefCastExp.Evaluate, DerefCastExp.ofValue, ArithExp.evaluate_single, ht,
      DerefCastExp.reinterpret]
  · cases h <;> rfl

/-- The amended C5 at the tree of `[cast([[fp-2]+3], felt*)]`. -/
theorem derefCast_of_double_deref_witness :
    (DerefCastExp.ofValue
        (ArithExp.single (TermExp.ofExp (Expression.ofDDeref
          (DDerefExp.ofDerefOffset (DerefExp.ofRegisterOffset "fp" "-" ⟨"2", ""⟩) "+"
            ⟨"3", ""⟩))))
        ["felt"]).Evaluate none = .error (.error "unexpected deref expression") :=
  (derefCast_of_double_deref none "fp" "-" "+" ⟨"2", ""⟩ ⟨"3", ""⟩ 2 3 ["felt"] (Or.inr rfl)
    rfl (by decide) (by decide) rfl (by decide) (by decide)).2.1

/-- C6: when the inner arithmetic expression of a bracketed cast evaluates to
a value `v`, the cast returns `Deref(v)` if `v` is `ApCellRef(k)` or
`FpCellRef(k)`, and `DoubleDeref(d, 0)` if `v` is a `Deref` `d`; no error is
returned in these cases. -/
theorem derefCast_reinterprets_cell_and_deref (h : DerefAddOffset) (e : DerefCastExp)
    (v : Reference) (hv : e.CastExp.ValueExp.Evaluate h = .ok v) :
    (∀ k, v = .ApCellRef k → e.Evaluate h = .ok (.Deref (.ApCellRef k))) ∧
    (∀ k, v = .FpCellRef k → e.Evaluate h = .ok (.Deref (.FpCellRef k))) ∧
    (∀ d, v = .Deref d → e.Evaluate h = .ok (.DoubleDeref (.Deref d) 0)) := by
  refine ⟨?_, ?_, ?_⟩ <;>
    · intro x hx
      subst hx
      simp only [DerefCastExp.Evaluate, hv, DerefCastExp.reinterpret]

/-- C6 at the trees of `[cast(ap, felt*)]`: the inner value `ApCellRef(0)`
becomes `Deref(ApCellRef(0))`. -/
theorem derefCast_reinterprets_cell_and_deref_witness :
    (DerefCastExp.ofValue (ArithExp.single (TermExp.ofExp (Expression.ofCellRef ⟨none, "ap"⟩)))
        ["felt"]).Evaluate none = .ok (.Deref (.ApCellRef 0)) :=
  (derefCast_reinterprets_cell_and_deref none
    (DerefCastExp.ofValue (ArithExp.single (TermExp.ofExp (Expression.ofCellRef ⟨none, "ap"⟩)))
      ["felt"]) (.ApCellRef 0) rfl).1 0 rfl

/-- The type switch of the bracketed cast on a `BinaryOp`. -/
theorem DerefCastExp.reinterpret_binaryOp (op : Operator) (l r : Reference) :
    (∀ res, DerefCastExp.reinterpret (.BinaryOp op l r) = .ok res ↔
      ∃ d f k, l = .Deref d ∧ r = .Immediate f ∧ Int16FromFelt f = some k ∧
        res = .DoubleDeref l k) ∧
    ((¬ ∃ d f k, l = .Deref d ∧ r = .Immediate f ∧ Int16FromFelt f = some k) →
      DerefCastExp.reinterpret (.BinaryOp op l r) =
        .error (.error "invalid binary operation inside a deref")) := by
  cases l <;> cases r <;>
    first
    | (rename_i d f
       cases hf : Int16FromFelt f <;> simp [DerefCastExp.reinterpret, hf, eq_comm])
    | simp [DerefCastExp.reinterpret]

/-- C7: when the inner expression of a bracketed cast evaluates to a
`BinaryOp` `b`, the cast succeeds exactly when `b.Lhs` is a `Deref` and
`b.Rhs` an `Immediate` that narrows to an `int16` `k`, and it then returns
`DoubleDeref(b.Lhs, k)`; every other `BinaryOp` gives the error "invalid
binary operation inside a deref"; an inner `Immediate` or `DoubleDeref` gives
the error "unexpected deref expression"; an error of the inner evaluation is
returned as it is. -/
theorem derefCast_rejection_rule (h : DerefAddOffset) (e : DerefCastExp) :
    (∀ op l r, e.CastExp.ValueExp.Evaluate h = .ok (.BinaryOp op l r) →
      (∀ res, e.Evaluate h = .ok res ↔
        ∃ d f k, l = .Deref d ∧ r = .Immediate f ∧ Int16FromFelt f = some k ∧
          res = .DoubleDeref l k) ∧
      ((¬ ∃ d f k, l = .Deref d ∧ r = .Immediate f ∧ Int16FromFelt f = some k) →
        e.Evaluate h = .error (.error "invalid binary operation inside a deref"))) ∧
    (∀ f, e.CastExp.ValueExp.Evaluate h = .ok (.Immediate f) →
      e.Evaluate h = .error (.error "unexpected deref expression")) ∧
    (∀ d k, e.CastExp.ValueExp.Evaluate h = .ok (.DoubleDeref d k) →
      e.Evaluate h = .error (.error "unexpected deref expression")) ∧
    (∀ err, e.CastExp.ValueExp.Evaluate h = .error err → e.Evaluate h = .error err) := by
  refine ⟨?_, ?_, ?_, ?_⟩
  · intro op l r hv
    simp only [DerefCastExp.Evaluate, hv]
    exact DerefCastExp.reinterpret_binaryOp op l r
  · intro f hv
    simp only [DerefCastExp.Evaluate, hv, DerefCastExp.reinterpret]
  · intro d k hv
    simp only [DerefCastExp.Evaluate, hv, DerefCastExp.reinterpret]
  · intro err hv
    simp only [DerefCastExp.Evaluate, hv]

/-- C7 at the tree of `[cast(2 * 3, felt*)]`: the inner value is the
`BinaryOp` of two immediates, whose left side is no `Deref`, and the cast gives
the error "invalid binary operation inside a deref". -/
theorem derefCast_rejection_rule_witness :
    (DerefCastExp.ofValue
        (ArithExp.single (TermExp.ofProd
          ⟨Expression.ofInt ⟨"2", ""⟩, "", Expression.ofInt ⟨"3", ""⟩⟩))
        ["felt"]).Evaluate none =
      .error (.error "invalid binary operation inside a deref") :=
  ((derefCast_rejection_rule none
    (DerefCastExp.ofValue
      (ArithExp.single (TermExp.ofProd
        ⟨Expression.ofInt ⟨"2", ""⟩, "", Expression.ofInt ⟨"3", ""⟩⟩))
      ["felt"])).1 .Mul (.Immediate (Felt.SetBigInt 2)) (.Immediate (Felt.SetBigInt 3)) rfl).2
    (by rintro ⟨d, f, k, hl, -, -⟩; cases hl)

/-! ## Theorems: the additive chain -/

/-- A field element made from an integer of the `int16` range narrows to that
integer. -/
theorem int16FromFelt_setBigInt (v : Int) (hv : inInt16 v) :
    Int16FromFelt (Felt.SetBigInt v) = some v := by
  unfold inInt16 at hv
  unfold Int16FromFelt Felt.SetBigInt P
  simp only
  split_ifs <;> first | omega | (congr 1; omega)

/-- A field element made from an integer outside the `int16` range and of
absolute value under `P - 32768` does not narrow. -/
theorem int16FromFelt_setBigInt_none (v : Int) (hv : ¬ inInt16 v)
    (hlt : |v| < (P : Int) - 32768) : Int16FromFelt (Felt.SetBigInt v) = none := by
  unfold inInt16 at hv
  unfold P at hlt
  rw [abs_lt] at hlt
  unfold Int16FromFelt Felt.SetBigInt P
  simp only
  split_ifs <;> first | rfl | omega

/-- The value of a literal additive term. -/
theorem AddExp.evaluate_ofInt (operator : String) (lit : OffsetExp) (v : Int)
    (hv : lit.Evaluate = .ok v) :
    (AddExp.ofInt operator lit).TermExp.Evaluate = .ok (.Immediate (Felt.SetBigInt v)) := by
  simp only [AddExp.ofInt, TermExp.Evaluate, TermExp.ofExp, Expression.Evaluate,
    Expression.ofInt, hv]

/-- The value of `AddOffset` on a register reference. -/
theorem addOffset_cellRef (h : DerefAddOffset) (register : String) (k off : Int) :
    AddOffset h (cellRef register k) off = cellRef register (wrap16 (k + off)) := by
  unfold cellRef
  split <;> rfl

/-- A register reference is a `CellRefer`. -/
theorem isCellRefer_cellRef (h : DerefAddOffset) (register : String) (k : Int) :
    isCellRefer h (cellRef register k) = true := by
  unfold cellRef
  split <;> rfl

/-- One step of the accumulation in `int16`: adding the offset the source
computes gives the exact sum when that sum is an `int16`. -/
theorem wrap16_add_offset (operator : String) (k v : Int)
    (hs : inInt16 (k + signedOffset operator v)) :
    wrap16 (k + (if operator = "-" then wrap16 (-v) else v)) = k + signedOffset operator v := by
  unfold inInt16 at hs
  unfold signedOffset at hs ⊢
  unfold wrap16
  split_ifs at hs ⊢ <;> omega

/-- The first loop of `ArithExp.Evaluate` over literal terms, from a register
reference: the offsets are added left to right. -/
theorem ArithExp.accumulate_literals (h : DerefAddOffset) (register : String) :
    ∀ (ts : List LiteralTerm) (k0 : Int),
      (∀ t ∈ ts, t.literal.Evaluate = .ok t.value ∧ inInt16 t.value) →
      (∀ i, i ≤ ts.length → inInt16 (k0 + offsetSum (ts.take i))) →
      ArithExp.accumulate h (cellRef register k0) (ts.map LiteralTerm.toAddExp) =
        .ok (cellRef register (k0 + offsetSum ts)) := by
  intro ts
  induction ts with
  | nil =>
    intro k0 _ _
    simp [ArithExp.accumulate, offsetSum]
  | cons t rest ih =>
    intro k0 hlit hsums
    have ht := hlit t (List.mem_cons_self _ _)
    have h1 : inInt16 (k0 + signedOffset t.operator t.value) := by
      have := hsums 1 (by simp)
      simpa [offsetSum, LiteralTerm.offset] using this
    have hrest := ih (k0 + signedOffset t.operator t.value)
      (fun u hu => hlit u (List.mem_cons_of_mem _ hu))
      (fun i hi => by
        have := hsums (i + 1) (by simpa using hi)
        simpa [offsetSum, LiteralTerm.offset, add_assoc] using this)
    have hstep : (LiteralTerm.toAddExp t).TermExp.Evaluate =
        .ok (.Immediate (Felt.SetBigInt t.value)) :=
      AddExp.evaluate_ofInt t.operator t.literal t.value ht.1
    have hop : (LiteralTerm.toAddExp t).Operator = t.operator := rfl
    simp only [List.map_cons, ArithExp.accumulate, hstep, int16FromFelt_setBigInt _ ht.2, hop,
      addOffset_cellRef, wrap16_add_offset t.operator k0 t.value h1, hrest]
    simp [offsetSum, LiteralTerm.offset, add_assoc]

/-- C8: when the first term of an `ArithExp` evaluates to the register
reference `CellRef(r, k0)` and the following terms are integer literals
`v1..vn` joined by `+` or `-`, every literal and every partial sum being an
`int16`, `ArithExp.Evaluate` returns `CellRef(r, k0 + sum of the signed
literals)` with the same register; and `ParseIdentifier("cast(ap + 3 - 1,
felt)")` returns `ApCellRef(2)`. -/
theorem arith_offset_accumulation (h : DerefAddOffset) (first : TermExp) (register : String)
    (k0 : Int) (ts : List LiteralTerm) (hreg : register = "ap" ∨ register = "fp")
    (hfirst : first.Evaluate = .ok (cellRef register k0))
    (hlit : ∀ t ∈ ts, t.literal.Evaluate = .ok t.value ∧
      (t.operator = "+" ∨ t.operator = "-") ∧ inInt16 t.value)
    (hsums : ∀ i, i ≤ ts.length → inInt16 (k0 + offsetSum (ts.take i))) :
    (ArithExp.mk first (ts.map LiteralTerm.toAddExp)).Evaluate h =
      .ok (cellRef register (k0 + offsetSum ts)) ∧
    (cellRef register (k0 + offsetSum ts) = .ApCellRef (k0 + offsetSum ts) ∨
      cellRef register (k0 + offsetSum ts) = .FpCellRef (k0 + offsetSum ts)) ∧
    ParseIdentifier h "cast(ap + 3 - 1, felt)" = .ok (.ApCellRef 2) := by
  refine ⟨?_, ?_, ?_⟩
  · simp only [ArithExp.Evaluate, hfirst, isCellRefer_cellRef, if_true]
    exact ArithExp.accumulate_literals h register ts k0
      (fun t ht => ⟨(hlit t ht).1, (hlit t ht).2.2⟩) hsums
  · rcases hreg with rfl | rfl
    · exact Or.inl rfl
    · exact Or.inr rfl
  · cases h <;> rfl

/-- C8 at the tree of `cast(ap + 3 - 1, felt)`: first term `ap`, then `+ 3`
and `- 1`; the value is `ApCellRef(2)`. -/
theorem arith_offset_accumulation_witness :
    (ArithExp.mk (TermExp.ofExp (Expression.ofCellRef ⟨none, "ap"⟩))
        [AddExp.ofInt "+" ⟨"3", ""⟩, AddExp.ofInt "-" ⟨"1", ""⟩]).Evaluate none =
      .ok (cellRef "ap" (0 + offsetSum [⟨"+", ⟨"3", ""⟩, 3⟩, ⟨"-", ⟨"1", ""⟩, 1⟩])) :=
  (arith_offset_accumulation none (TermExp.ofExp (Expression.ofCellRef ⟨none, "ap"⟩)) "ap" 0
    [⟨"+", ⟨"3", ""⟩, 3⟩, ⟨"-", ⟨"1", ""⟩, 1⟩] (Or.inl rfl) rfl
    (by
      intro t ht
      simp only [List.mem_cons, List.mem_singleton, List.not_mem_nil, or_false] at ht
      rcases ht with rfl | rfl
      · exact ⟨rfl, Or.inl rfl, by decide⟩
      · exact ⟨rfl, Or.inr rfl, by decide⟩)
    (by
      intro i hi
      have hi' : i = 0 ∨ i = 1 ∨ i = 2 := by
        simp only [List.length_cons, List.length_nil] at hi
        omega
      rcases hi' with rfl | rfl | rfl <;> decide)).1

/-- The first loop of `ArithExp.Evaluate` over a list that holds a term whose
value is no `Immediate` narrowing to `int16`: it returns the error "invalid
arithmetic expression", or the error of a term before it. -/
theorem ArithExp.accumulate_rejects (h : DerefAddOffset) (bad : Zero.AddExp)
    (post : List Zero.AddExp)
    (r : Reference) (hbad : bad.TermExp.Evaluate = .ok r)
    (hr : ∀ f, r = .Immediate f → Int16FromFelt f = none) :
    ∀ (pre : List Zero.AddExp) (cur : Reference),
      ArithExp.accumulate h cur (pre ++ bad :: post) =
          .error (.error "invalid arithmetic expression") ∨
        ∃ t ∈ pre, ∃ err, t.TermExp.Evaluate = .error err ∧
          ArithExp.accumulate h cur (pre ++ bad :: post) = .error err := by
  intro pre
  induction pre with
  | nil =>
    intro cur
    left
    cases r with
    | Immediate f => simp [ArithExp.accumulate, hbad, hr f rfl]
    | _ => simp [ArithExp.accumulate, hbad]
  | cons t pre ih =>
    intro cur
    cases ht : t.TermExp.Evaluate with
    | error err =>
      right
      exact ⟨t, List.mem_cons_self _ _, err, ht, by simp [ArithExp.accumulate, ht]⟩
    | ok x =>
      cases x with
      | Immediate f =>
        cases hf : Int16FromFelt f with
        | none =>
          left
          simp [ArithExp.accumulate, ht, hf]
        | some off =>
          rcases ih (AddOffset h cur (if t.Operator = "-" then wrap16 (-off) else off)) with
            hmsg | ⟨u, hu, err, hue, hres⟩
          · left
            simpa [ArithExp.accumulate, ht, hf] using hmsg
          · right
            exact ⟨u, List.mem_cons_of_mem _ hu, err, hue, by
              simpa [ArithExp.accumulate, ht, hf] using hres⟩
      | _ =>
        left
        simp [ArithExp.accumulate, ht]

/-- C9: when the first term of an `ArithExp` evaluates to `ApCellRef` or
`FpCellRef` and the following terms all evaluate without error, and one of
them evaluates to something that is no `Immediate` narrowing to `int16`,
`ArithExp.Evaluate` returns the error "invalid arithmetic expression" and no
reference; `cast(ap + [fp], felt)` and `cast(ap + 2 * 3, felt)` are rejected
so. -/
theorem arith_rejects_non_immediate (h : DerefAddOffset) (e : ArithExp) (k0 : Int)
    (hfirst : e.TermExp.Evaluate = .ok (.ApCellRef k0) ∨
      e.TermExp.Evaluate = .ok (.FpCellRef k0))
    (hall : ∀ t ∈ e.AddExp, ∃ r, t.TermExp.Evaluate = .ok r)
    (hbad : ∃ t ∈ e.AddExp, ∀ f, t.TermExp.Evaluate = .ok (.Immediate f) →
      Int16FromFelt f = none) :
    e.Evaluate h = .error (.error "invalid arithmetic expression") ∧
    ParseIdentifier h "cast(ap + [fp], felt)" =
      .error (.error "invalid arithmetic expression") ∧
    ParseIdentifier h "cast(ap + 2 * 3, felt)" =
      .error (.error "invalid arithmetic expression") := by
  refine ⟨?_, by cases h <;> rfl, by cases h <;> rfl⟩
  obtain ⟨bad, hmem, hcond⟩ := hbad
  obtain ⟨r, hr⟩ := hall bad hmem
  obtain ⟨pre, post, hsplit⟩ := List.append_of_mem hmem
  have key : ∀ cur, ArithExp.accumulate h cur e.AddExp =
      .error (.error "invalid arithmetic expression") := by
    intro cur
    rw [hsplit]
    rcases ArithExp.accumulate_rejects h bad post r hr
        (fun f hf => hcond f (by rw [hr, hf])) pre cur with hmsg | ⟨u, hu, err, hue, _⟩
    · exact hmsg
    · obtain ⟨x, hx⟩ := hall u (by rw [hsplit]; exact List.mem_append_left _ hu)
      rw [hx] at hue
      cases hue
  rcases hfirst with hf | hf <;>
    simp only [ArithExp.Evaluate, hf, isCellRefer, if_true, key]

/-- C9 at the tree of `cast(ap + [fp], felt)`: the additive term is a deref. -/
theorem arith_rejects_non_immediate_witness :
    (ArithExp.mk (TermExp.ofExp (Expression.ofCellRef ⟨none, "ap"⟩))
        [⟨"+", TermExp.ofExp (Expression.ofDeref ⟨⟨none, "fp"⟩⟩)⟩]).Evaluate none =
      .error (.error "invalid arithmetic expression") :=
  (arith_rejects_non_immediate none
    (ArithExp.mk (TermExp.ofExp (Expression.ofCellRef ⟨none, "ap"⟩))
      [⟨"+", TermExp.ofExp (Expression.ofDeref ⟨⟨none, "fp"⟩⟩)⟩]) 0 (Or.inl rfl)
    (by
      intro t ht
      simp only [List.mem_singleton] at ht
      subst ht
      exact ⟨.Deref (.FpCellRef 0), rfl⟩)
    ⟨⟨"+", TermExp.ofExp (Expression.ofDeref ⟨⟨none, "fp"⟩⟩)⟩, List.mem_singleton.mpr rfl,
      fun f hf => by
        have h0 : (AddExp.mk "+" (TermExp.ofExp (Expression.ofDeref
            ⟨⟨none, "fp"⟩⟩))).TermExp.Evaluate = .ok (.Deref (.FpCellRef 0)) := rfl
        rw [h0] at hf
        cases hf⟩).1

/-! ## Theorems: narrowing to `int16` -/

/-- C10, as stated, fails in two places. A literal of absolute value beyond
the `int16` range whose residue modulo the field prime is small is accepted by
the additive accumulation: `P + 5` added to `ap` gives `ApCellRef(5)`. And the
literal `(-32768)`, of absolute value `32768`, is accepted wherever an offset
is narrowed: `(ap + (-32768))` is `ApCellRef(-32768)`. -/
theorem narrowing_accepts_some_large_literals :
    OffsetExp.Evaluate
        ⟨"3618502788666131213697322783095070105623107215331596699973092056135872020486",
          ""⟩ = .ok ((P : Int) + 5) ∧
    ParseIdentifier none
        "cast(ap + 3618502788666131213697322783095070105623107215331596699973092056135872020486, felt)"
      = .ok (.ApCellRef 5) ∧
    OffsetExp.Evaluate ⟨"", "32768"⟩ = .ok (-32768) ∧
    ParseIdentifier none "cast((ap + (-32768)), felt)" = .ok (.ApCellRef (-32768)) ∧
    ParseIdentifier none "cast([[fp] + (-32768)], felt)" =
      .ok (.DoubleDeref (.Deref (.FpCellRef 0)) (-32768)) ∧
    ParseIdentifier none "cast(ap + (-32768), felt)" = .ok (.ApCellRef (-32768)) :=
  ⟨rfl, rfl, rfl, rfl, rfl, rfl⟩

/-- C10, amended: for every offset literal of value `v` outside
`[-32768, 32767]`, whatever the operator, `RegisterOffset.Evaluate` returns
the error "offset does not fit in int16"; the offset branch of
`DDerefExp.Evaluate` returns an error (that one when its deref evaluates); and,
when moreover `|v| < P - 32768`, the additive accumulation of
`ArithExp.Evaluate` on a register reference returns an error ("invalid
arithmetic expression" when the terms before the literal evaluate). No
reference is returned. The texts with `40000` and `(-40000)` all fail. -/
theorem narrowing_failure (v : Int) (hout : ¬ inInt16 v) :
    (∀ ro : RegisterOffset, ro.Offset.Evaluate = .ok v →
      ro.Evaluate = .error (.error "offset does not fit in int16")) ∧
    (∀ doe : DerefOffsetExp, doe.Offset.Evaluate = .ok v →
      (∃ err, (DDerefExp.mk (some doe) none).Evaluate = .error err) ∧
      ∀ d, doe.DerefExp.Evaluate = .ok d →
        (DDerefExp.mk (some doe) none).Evaluate =
          .error (.error "offset does not fit in int16")) ∧
    (|v| < (P : Int) - 32768 →
      ∀ (h : DerefAddOffset) (e : ArithExp) (k0 : Int) (pre post : List AddExp)
        (operator : String) (lit : OffsetExp),
        (e.TermExp.Evaluate = .ok (.ApCellRef k0) ∨ e.TermExp.Evaluate = .ok (.FpCellRef k0)) →
        lit.Evaluate = .ok v → e.AddExp = pre ++ AddExp.ofInt operator lit :: post →
        (∃ err, e.Evaluate h = .error err) ∧
        ((∀ t ∈ pre, ∃ r, t.TermExp.Evaluate = .ok r) →
          e.Evaluate h = .error (.error "invalid arithmetic expression"))) ∧
    (∀ h : DerefAddOffset,
      ParseIdentifier h "cast((ap + 40000), felt)" =
        .error (.error "offset does not fit in int16") ∧
      ParseIdentifier h "cast((ap - (-40000)), felt)" =
        .error (.error "offset does not fit in int16") ∧
      ParseIdentifier h "cast([fp - 40000], felt)" =
        .error (.error "offset does not fit in int16") ∧
      ParseIdentifier h "cast([[fp] + 40000], felt)" =
        .error (.error "offset does not fit in int16") ∧
      ParseIdentifier h "cast([[fp] - (-40000)], felt)" =
        .error (.error "offset does not fit in int16") ∧
      ParseIdentifier h "cast(ap + 40000, felt)" =
        .error (.error "invalid arithmetic expression") ∧
      ParseIdentifier h "cast(ap - (-40000), felt)" =
        .error (.error "invalid arithmetic expression")) := by
  have hn : Int16FromBigInt v = none := by
    unfold Int16FromBigInt
    exact if_neg hout
  refine ⟨?_, ?_, ?_, ?_⟩
  · intro ro hv
    simp only [RegisterOffset.Evaluate, hv, hn]
  · intro doe hv
    constructor
    · cases hd : doe.DerefExp.Evaluate with
      | error err => exact ⟨err, by simp only [DDerefExp.Evaluate, hd]⟩
      | ok d =>
        exact ⟨.error "offset does not fit in int16", by
          simp only [DDerefExp.Evaluate, hd, hv, hn]⟩
    · intro d hd
      simp only [DDerefExp.Evaluate, hd, hv, hn]
  · intro hlt h e k0 pre post operator lit hfirst hv hsplit
    have hbad := AddExp.evaluate_ofInt operator lit v hv
    have hnone := int16FromFelt_setBigInt_none v hout hlt
    have key := fun cur => ArithExp.accumulate_rejects h (AddExp.ofInt operator lit) post
      (.Immediate (Felt.SetBigInt v)) hbad
      (fun f hf => by cases hf; exact hnone) pre cur
    have heval : ∃ cur, e.Evaluate h =
        ArithExp.accumulate h cur (pre ++ AddExp.ofInt operator lit :: post) := by
      rcases hfirst with hk | hk
      · exact ⟨.ApCellRef k0, by simp only [ArithExp.Evaluate, hk, isCellRefer, if_true, hsplit]⟩
      · exact ⟨.FpCellRef k0, by simp only [ArithExp.Evaluate, hk, isCellRefer, if_true, hsplit]⟩
    obtain ⟨cur, hcur⟩ := heval
    rw [hcur]
    constructor
    · rcases key cur with hmsg | ⟨_, _, err, _, hres⟩
      · exact ⟨_, hmsg⟩
      · exact ⟨err, hres⟩
    · intro hpre
      rcases key cur with hmsg | ⟨u, hu, err, hue, _⟩
      · exact hmsg
      · obtain ⟨x, hx⟩ := hpre u hu
        rw [hx] at hue
        cases hue
  · intro h
    cases h <;> exact ⟨rfl, rfl, rfl, rfl, rfl, rfl, rfl⟩

/-- The amended C10 at the literal `40000` and the tree of `ap + 40000`. -/
theorem narrowing_failure_witness :
    ¬ inInt16 40000 ∧
    (RegisterOffset.mk "ap" "+" ⟨"40000", ""⟩).Evaluate =
      .error (.error "offset does not fit in int16") :=
  ⟨by decide, (narrowing_failure 40000 (by decide)).1 ⟨"ap", "+", ⟨"40000", ""⟩⟩ rfl⟩

/-! ## Theorems: round trip of the offsets -/

/-- A decimal digit character is a digit and has the value of its digit. -/
theorem digitChar_isDigit (m : Nat) (hm : m < 10) :
    (Nat.digitChar m).isDigit = true ∧ (Nat.digitChar m).toNat - 48 = m := by
  interval_cases m <;> decide

/-- Reading back the digits `Nat.toDigitsCore` writes in front of `ds` leaves
the value `n` to carry on with over `ds`. -/
theorem digitsValue_toDigitsCore (fuel : Nat) :
    ∀ (n : Nat) (ds : List Char), n < fuel →
      digitsValue (Nat.toDigitsCore 10 fuel n ds) 0 = digitsValue ds n := by
  induction fuel with
  | zero => intro n ds hn; omega
  | succ fuel ih =>
    intro n ds hn
    have hd := digitChar_isDigit (n % 10) (Nat.mod_lt _ (by decide))
    unfold Nat.toDigitsCore
    simp only
    split
    · rename_i h0
      have hlt : n < 10 := by omega
      simp only [digitsValue, hd.1, if_true, hd.2]
      congr 1
      omega
    · rename_i h0
      rw [ih (n / 10) _ (by omega)]
      simp only [digitsValue, hd.1, if_true, hd.2]
      congr 1
      omega

/-- The digits of a natural number read back to that number. -/
theorem digitsValue_toDigits (n : Nat) : digitsValue (Nat.toDigits 10 n) 0 = some n := by
  unfold Nat.toDigits
  rw [digitsValue_toDigitsCore (n + 1) n [] (Nat.lt_succ_self n)]
  rfl

/-- Writing digits in front of a list that is not empty gives a list that is
not empty. -/
theorem toDigitsCore_ne_nil (fuel : Nat) :
    ∀ (n : Nat) (ds : List Char), ds ≠ [] → Nat.toDigitsCore 10 fuel n ds ≠ [] := by
  induction fuel with
  | zero => intro n ds hds; simpa [Nat.toDigitsCore] using hds
  | succ fuel ih =>
    intro n ds _
    unfold Nat.toDigitsCore
    simp only
    split
    · simp
    · exact ih _ _ (by simp)

/-- A natural number has one digit at least. -/
theorem toDigits_ne_nil (n : Nat) : Nat.toDigits 10 n ≠ [] := by
  unfold Nat.toDigits Nat.toDigitsCore
  simp only
  split
  · simp
  · exact toDigitsCore_ne_nil _ _ _ (by simp)

/-- On a run of digits that is not empty `SetString` gives the value of the
digits. -/
theorem bigIntSetString_of_digits (l : List Char) (n : Nat) (hl : l ≠ [])
    (hv : digitsValue l 0 = some n) : bigIntSetString (String.mk l) = some (n : Int) := by
  unfold bigIntSetString
  cases l with
  | nil => exact absurd rfl hl
  | cons c cs =>
    have hc : c.isDigit = true := by
      by_contra hc
      simp [digitsValue, hc] at hv
    split
    · rename_i heq; simp at heq
    · rename_i heq
      simp only [String.toList, List.cons.injEq] at heq
      rw [heq.1] at hc
      exact absurd hc (by decide)
    · rename_i heq
      simp only [String.toList, List.cons.injEq] at heq
      rw [heq.1] at hc
      exact absurd hc (by decide)
    · rename_i heq
      simp only [String.toList, List.cons.injEq] at heq
      rw [heq.1] at hc
      exact absurd hc (by decide)
    · rename_i heq
      simp only [String.toList, List.cons.injEq] at heq
      rw [heq.1] at hc
      exact absurd hc (by decide)
    · rename_i c' cs' _ _ _ _ heq
      simp only [String.toList, List.cons.injEq] at heq
      rw [← heq.1, ← heq.2, hv]
      rfl

/-- On the decimal numeral of `n` the call `SetString` gives `n`. -/
theorem bigIntSetString_repr (n : Nat) : bigIntSetString (Nat.repr n) = some (n : Int) :=
  bigIntSetString_of_digits _ n (toDigits_ne_nil n) (digitsValue_toDigits n)

/-- A decimal numeral is not the empty string. -/
theorem repr_ne_empty (n : Nat) : Nat.repr n ≠ "" := by
  intro h
  have : (Nat.repr n).data = [] := by rw [h]
  exact toDigits_ne_nil n this

/-- The offset text of an integer evaluates to that integer. -/
theorem OffsetExp.evaluate_numeral (k : Int) : (OffsetExp.numeral k).Evaluate = .ok k := by
  unfold OffsetExp.numeral
  split
  · rename_i hk
    simp only [OffsetExp.Evaluate, repr_ne_empty, ne_eq, not_false_eq_true, if_true,
      bigIntSetString_repr]
    congr 1
    omega
  · rename_i hk
    simp only [OffsetExp.Evaluate, repr_ne_empty, ne_eq, not_true_eq_false, not_false_eq_true,
      if_true, if_false, bigIntSetString_repr]
    congr 1
    omega

/-- C11: for every integer `k` of `[-32768, 32767]`, with `K` its decimal
numeral or the form `(-N)`, the offset text evaluates to `k`; the register
with offset `ap + K` evaluates to `ApCellRef(k)` and `fp + K` to
`FpCellRef(k)`, through `RegisterOffset.Evaluate` (in the forms `(ap + K)` and
`[ap + K]`) and through the additive chain of `ArithExp.Evaluate`
(`cast(ap + K, felt)`). -/
theorem register_round_trip (k : Int) (hk : inInt16 k) :
    (OffsetExp.numeral k).Evaluate = .ok k ∧
    (RegisterOffset.mk "ap" "+" (OffsetExp.numeral k)).Evaluate = .ok (.ApCellRef k) ∧
    (RegisterOffset.mk "fp" "+" (OffsetExp.numeral k)).Evaluate = .ok (.FpCellRef k) ∧
    (CellRefExp.mk (some ⟨"ap", "+", OffsetExp.numeral k⟩) "").Evaluate = .ok (.ApCellRef k) ∧
    (CellRefExp.mk (some ⟨"fp", "+", OffsetExp.numeral k⟩) "").Evaluate = .ok (.FpCellRef k) ∧
    (CellRefSimple.mk (some ⟨"ap", "+", OffsetExp.numeral k⟩) "").Evaluate =
      .ok (.ApCellRef k) ∧
    (CellRefSimple.mk (some ⟨"fp", "+", OffsetExp.numeral k⟩) "").Evaluate =
      .ok (.FpCellRef k) ∧
    (∀ h : DerefAddOffset,
      (ArithExp.mk (TermExp.ofExp (Expression.ofCellRef ⟨none, "ap"⟩))
          [AddExp.ofInt "+" (OffsetExp.numeral k)]).Evaluate h = .ok (.ApCellRef k) ∧
      (ArithExp.mk (TermExp.ofExp (Expression.ofCellRef ⟨none, "fp"⟩))
          [AddExp.ofInt "+" (OffsetExp.numeral k)]).Evaluate h = .ok (.FpCellRef k)) ∧
    (∀ h : DerefAddOffset,
      ParseIdentifier h "cast((ap + 32767), felt)" = .ok (.ApCellRef 32767) ∧
      ParseIdentifier h "cast((fp + (-32768)), felt)" = .ok (.FpCellRef (-32768)) ∧
      ParseIdentifier h "cast([ap + (-1)], felt)" = .ok (.Deref (.ApCellRef (-1))) ∧
      ParseIdentifier h "cast(ap + 32767, felt)" = .ok (.ApCellRef 32767) ∧
      ParseIdentifier h "cast(fp + (-32768), felt)" = .ok (.FpCellRef (-32768))) := by
  have hv := OffsetExp.evaluate_numeral k
  have hplus : signedOffset "+" k = k := rfl
  have hap := RegisterOffset.evaluate_eq "ap" "+" (OffsetExp.numeral k) k (Or.inl rfl) hv hk
    (by rw [hplus]; exact hk)
  have hfp := RegisterOffset.evaluate_eq "fp" "+" (OffsetExp.numeral k) k (Or.inr rfl) hv hk
    (by rw [hplus]; exact hk)
  rw [hplus] at hap hfp
  have hap' : (RegisterOffset.mk "ap" "+" (OffsetExp.numeral k)).Evaluate =
      .ok (.ApCellRef k) := hap
  have hfp' : (RegisterOffset.mk "fp" "+" (OffsetExp.numeral k)).Evaluate =
      .ok (.FpCellRef k) := hfp
  have hw : wrap16 (0 + if ("+" : String) = "-" then wrap16 (-k) else k) = k := by
    rw [if_neg (by decide), Int.zero_add]
    exact wrap16_of_inInt16 k hk
  refine ⟨hv, hap', hfp', ?_, ?_, ?_, ?_, ?_, ?_⟩
  · simp only [CellRefExp.Evaluate, hap']
  · simp only [CellRefExp.Evaluate, hfp']
  · simp only [CellRefSimple.Evaluate, hap']
  · simp only [CellRefSimple.Evaluate, hfp']
  · intro h
    have hterm := AddExp.evaluate_ofInt "+" (OffsetExp.numeral k) k hv
    have hop : (AddExp.ofInt "+" (OffsetExp.numeral k)).Operator = "+" := rfl
    have hnarrow := int16FromFelt_setBigInt k hk
    constructor
    · have hfirst : (TermExp.ofExp (Expression.ofCellRef ⟨none, "ap"⟩)).Evaluate =
          .ok (.ApCellRef 0) := rfl
      simp only [ArithExp.Evaluate, hfirst, isCellRefer, if_true, ArithExp.accumulate, hterm,
        hnarrow, hop, AddOffset, hw]
    · have hfirst : (TermExp.ofExp (Expression.ofCellRef ⟨none, "fp"⟩)).Evaluate =
          .ok (.FpCellRef 0) := rfl
      simp only [ArithExp.Evaluate, hfirst, isCellRefer, if_true, ArithExp.accumulate, hterm,
        hnarrow, hop, AddOffset, hw]
  · intro h
    cases h <;> exact ⟨rfl, rfl, rfl, rfl, rfl⟩

/-- C11 at `k = -7`: the offset text is `(-7)` and `ap + (-7)` is
`ApCellRef(-7)`. -/
theorem register_round_trip_witness :
    OffsetExp.numeral (-7) = ⟨"", "7"⟩ ∧
    (RegisterOffset.mk "ap" "+" (OffsetExp.numeral (-7))).Evaluate = .ok (.ApCellRef (-7)) :=
  ⟨by decide, (register_round_trip (-7) (by decide)).2.1⟩

/-! ## Theorems: the sign of an offset and the `int16` range -/

/-- C12, evaluated at the edge of the `int16` range. The offset is narrowed
before the operator is applied and the negation is taken in `int16`: the text
`(ap - (-32768))`, whose offset `+32768` is no `int16`, evaluates to
`ApCellRef(-32768)` and not to an error, and `(ap - 32768)`, whose offset
`-32768` is an `int16`, evaluates to the error "offset does not fit in int16";
the same holds in the offset branch of `DDerefExp.Evaluate`, and the additive
chain accepts `ap - (-32768)` as `ApCellRef(-32768)`. -/
theorem negated_offset_at_int16_edge :
    (RegisterOffset.mk "ap" "-" ⟨"", "32768"⟩).Evaluate = .ok (.ApCellRef (-32768)) ∧
    ParseIdentifier none "cast((ap - (-32768)), felt)" = .ok (.ApCellRef (-32768)) ∧
    signedOffset "-" (-32768) = 32768 ∧ ¬ inInt16 32768 ∧
    (RegisterOffset.mk "ap" "-" ⟨"32768", ""⟩).Evaluate =
      .error (.error "offset does not fit in int16") ∧
    ParseIdentifier none "cast((ap - 32768), felt)" =
      .error (.error "offset does not fit in int16") ∧
    signedOffset "-" 32768 = -32768 ∧ inInt16 (-32768) ∧
    ParseIdentifier none "cast([[fp] - (-32768)], felt)" =
      .ok (.DoubleDeref (.Deref (.FpCellRef 0)) (-32768)) ∧
    ParseIdentifier none "cast([[fp] - 32768], felt)" =
      .error (.error "offset does not fit in int16") ∧
    ParseIdentifier none "cast(ap - (-32768), felt)" = .ok (.ApCellRef (-32768)) ∧
    ParseIdentifier none "cast(ap - 32768, felt)" =
      .error (.error "invalid arithmetic expression") :=
  ⟨rfl, rfl, rfl, by decide, rfl, rfl, rfl, by decide, rfl, rfl, rfl, rfl⟩

/-! ## Theorems: the folding path of the additive chain -/

/-- An `Immediate` and a `BinaryOp` are no `CellRefer`. -/
theorem isCellRefer_of_not_cell (h : DerefAddOffset) (v0 : Reference)
    (hnot : (∃ f, v0 = .Immediate f) ∨ ∃ op l r, v0 = .BinaryOp op l r) :
    isCellRefer h v0 = false := by
  rcases hnot with ⟨f, rfl⟩ | ⟨op, l, r, rfl⟩ <;> rfl

/-- The second loop of `ArithExp.Evaluate` over terms joined by `+`: the
left-nested chain of `BinaryOp(Add, ...)`. -/
theorem ArithExp.fold_plus :
    ∀ (adds : List Zero.AddExp) (vals : List Reference) (v0 : Reference),
      List.Forall₂ (fun t v => t.Operator = "+" ∧ t.TermExp.Evaluate = .ok v) adds vals →
      ArithExp.fold v0 adds = .ok (addChain v0 vals) := by
  intro adds vals v0 hrel
  induction hrel generalizing v0 with
  | nil => rfl
  | cons hhead _ ih =>
    obtain ⟨hop, hval⟩ := hhead
    have hparse : parseOperator "+" = .ok .Add := rfl
    simp only [ArithExp.fold, hval, hop, hparse, ih]
    rfl

/-- The second loop of `ArithExp.Evaluate` over a list that holds a term
joined by `-`, when the terms up to it evaluate without error: the error of
`parseOperator` on `-`. -/
theorem ArithExp.fold_rejects_minus (bad : Zero.AddExp) (post : List Zero.AddExp)
    (hop : bad.Operator = "-") (hbad : ∃ r, bad.TermExp.Evaluate = .ok r) :
    ∀ (pre : List Zero.AddExp) (cur : Reference),
      (∀ t ∈ pre, (t.Operator = "+" ∨ t.Operator = "-") ∧ ∃ r, t.TermExp.Evaluate = .ok r) →
      ArithExp.fold cur (pre ++ bad :: post) =
        .error (.error ("unexpected op: " ++ String.quote "-")) := by
  have hminus : parseOperator "-" = .error (.error ("unexpected op: " ++ String.quote "-")) :=
    rfl
  have hplus : parseOperator "+" = .ok .Add := rfl
  obtain ⟨rb, hrb⟩ := hbad
  intro pre
  induction pre with
  | nil =>
    intro cur _
    simp only [List.nil_append, ArithExp.fold, hrb, hop, hminus]
  | cons t pre ih =>
    intro cur hpre
    obtain ⟨hopt, r, hr⟩ := hpre t (List.mem_cons_self _ _)
    rcases hopt with hopt | hopt
    · simp only [List.cons_append, ArithExp.fold, hr, hopt, hplus]
      exact ih _ (fun u hu => hpre u (List.mem_cons_of_mem _ hu))
    · simp only [List.cons_append, ArithExp.fold, hr, hopt, hminus]

/-- C13, as stated, fails: `ParseIdentifier("cast(5 - 2, felt)")` is an error,
the one `parseOperator` gives on `-`, and no `BinaryOp`. -/
theorem parseIdentifier_subtraction_of_immediates_is_error :
    ParseIdentifier none "cast(5 - 2, felt)" =
      .error (.error ("unexpected op: " ++ String.quote "-")) ∧
    ∀ res, ParseIdentifier none "cast(5 - 2, felt)" ≠ .ok res := by
  have h0 : ParseIdentifier none "cast(5 - 2, felt)" =
      .error (.error ("unexpected op: " ++ String.quote "-")) := rfl
  refine ⟨h0, ?_⟩
  intro res h
  rw [h0] at h
  cases h

/-- C13, amended: when the first term of an `ArithExp` is not cell-like (an
`Immediate` or a `BinaryOp`) and the following terms, joined by `+` or `-`,
all evaluate without error, `ArithExp.Evaluate` succeeds if every operator is
`+`, and returns the error `unexpected op: "-"` of `parseOperator` if some
operator is `-`: no negated term is folded. `cast(5 - 2, felt)` evaluates to
that error. -/
theorem arith_fold_rejects_subtraction (h : DerefAddOffset) (e : ArithExp) (v0 : Reference)
    (hfirst : e.TermExp.Evaluate = .ok v0)
    (hnot : (∃ f, v0 = .Immediate f) ∨ ∃ op l r, v0 = .BinaryOp op l r)
    (hall : ∀ t ∈ e.AddExp,
      (t.Operator = "+" ∨ t.Operator = "-") ∧ ∃ r, t.TermExp.Evaluate = .ok r) :
    ((∀ t ∈ e.AddExp, t.Operator = "+") → ∃ res, e.Evaluate h = .ok res) ∧
    ((∃ t ∈ e.AddExp, t.Operator = "-") →
      e.Evaluate h = .error (.error ("unexpected op: " ++ String.quote "-"))) ∧
    ParseIdentifier h "cast(5 - 2, felt)" =
      .error (.error ("unexpected op: " ++ String.quote "-")) := by
  have hcell := isCellRefer_of_not_cell h v0 hnot
  have heval : e.Evaluate h = ArithExp.fold v0 e.AddExp := by
    simp only [ArithExp.Evaluate, hfirst, hcell, Bool.false_eq_true, if_false]
  refine ⟨?_, ?_, by cases h <;> rfl⟩
  · intro hplus
    have hrel : ∃ vals, List.Forall₂
        (fun t v => t.Operator = "+" ∧ t.TermExp.Evaluate = .ok v) e.AddExp vals := by
      generalize e.AddExp = adds at hall hplus
      induction adds with
      | nil => exact ⟨[], List.Forall₂.nil⟩
      | cons t rest ih =>
        obtain ⟨vals, hvals⟩ := ih (fun u hu => hall u (List.mem_cons_of_mem _ hu))
          (fun u hu => hplus u (List.mem_cons_of_mem _ hu))
        obtain ⟨_, r, hr⟩ := hall t (List.mem_cons_self _ _)
        exact ⟨r :: vals, List.Forall₂.cons ⟨hplus t (List.mem_cons_self _ _), hr⟩ hvals⟩
    obtain ⟨vals, hvals⟩ := hrel
    exact ⟨_, by rw [heval, ArithExp.fold_plus _ _ _ hvals]⟩
  · rintro ⟨bad, hmem, hop⟩
    obtain ⟨pre, post, hsplit⟩ := List.append_of_mem hmem
    rw [heval, hsplit]
    exact ArithExp.fold_rejects_minus bad post hop (hall bad hmem).2 pre v0
      (fun u hu => hall u (by rw [hsplit]; exact List.mem_append_left _ hu))

/-- The amended C13 at the tree of `cast(5 - 2, felt)`. -/
theorem arith_fold_rejects_subtraction_witness :
    (ArithExp.mk (TermExp.ofExp (Expression.ofInt ⟨"5", ""⟩))
        [AddExp.ofInt "-" ⟨"2", ""⟩]).Evaluate none =
      .error (.error ("unexpected op: " ++ String.quote "-")) :=
  (arith_fold_rejects_subtraction none
    (ArithExp.mk (TermExp.ofExp (Expression.ofInt ⟨"5", ""⟩)) [AddExp.ofInt "-" ⟨"2", ""⟩])
    (.Immediate (Felt.SetBigInt 5)) rfl (Or.inl ⟨_, rfl⟩)
    (by
      intro t ht
      simp only [List.mem_singleton] at ht
      subst ht
      exact ⟨Or.inr rfl, .Immediate (Felt.SetBigInt 2), rfl⟩)).2.1
    ⟨AddExp.ofInt "-" ⟨"2", ""⟩, List.mem_singleton.mpr rfl, rfl⟩

/-- C18: when the first term of an `ArithExp` evaluates to a value `v0` that
is not cell-like (an `Immediate` or a `BinaryOp`) and the following terms, all
joined by `+`, evaluate to `v1..vn`, `ArithExp.Evaluate` returns the
left-nested chain `BinaryOp(Add, ... BinaryOp(Add, v0, v1) ..., vn)`; nothing
is narrowed to `int16` (`cast(5 + 40000, felt)` is the sum of two immediates);
with no following term it returns `v0`; and `ProdExp.Evaluate` on
sub-expressions of values `l` and `r` returns `BinaryOp(Mul, l, r)`. -/
theorem arith_left_associative_folding (h : DerefAddOffset) (first : TermExp)
    (adds : List AddExp) (v0 : Reference) (vals : List Reference)
    (hfirst : first.Evaluate = .ok v0)
    (hnot : (∃ f, v0 = .Immediate f) ∨ ∃ op l r, v0 = .BinaryOp op l r)
    (hvals : List.Forall₂ (fun t v => t.Operator = "+" ∧ t.TermExp.Evaluate = .ok v)
      adds vals) :
    (ArithExp.mk first adds).Evaluate h = .ok (addChain v0 vals) ∧
    (∀ v1 v2 v3, addChain v0 [v1, v2, v3] =
      .BinaryOp .Add (.BinaryOp .Add (.BinaryOp .Add v0 v1) v2) v3) ∧
    (ArithExp.mk first []).Evaluate h = .ok v0 ∧
    (∀ (p : ProdExp) (l r : Reference), p.LeftExp.Evaluate = .ok l →
      p.RightExp.Evaluate = .ok r → p.Evaluate = .ok (.BinaryOp .Mul l r)) ∧
    ParseIdentifier h "cast(5 + 40000, felt)" =
      .ok (.BinaryOp .Add (.Immediate (Felt.SetBigInt 5)) (.Immediate (Felt.SetBigInt 40000)))
      := by
  have hcell := isCellRefer_of_not_cell h v0 hnot
  refine ⟨?_, fun _ _ _ => rfl, ?_, ?_, by cases h <;> rfl⟩
  · simp only [ArithExp.Evaluate, hfirst, hcell, Bool.false_eq_true, if_false]
    exact ArithExp.fold_plus adds vals v0 hvals
  · simp only [ArithExp.Evaluate, hfirst, hcell, Bool.false_eq_true, if_false, ArithExp.fold]
  · intro p l r hl hr
    simp only [ProdExp.Evaluate, hl, hr]

/-- C18 at the tree of `cast(2 * 3 + 40000 + [fp], felt)`: the product is
folded with the literal and the deref, left to right. -/
theorem arith_left_associative_folding_witness :
    (ArithExp.mk
        (TermExp.ofProd ⟨Expression.ofInt ⟨"2", ""⟩, "", Expression.ofInt ⟨"3", ""⟩⟩)
        [AddExp.ofInt "+" ⟨"40000", ""⟩,
          ⟨"+", TermExp.ofExp (Expression.ofDeref ⟨⟨none, "fp"⟩⟩)⟩]).Evaluate none =
      .ok (addChain
        (.BinaryOp .Mul (.Immediate (Felt.SetBigInt 2)) (.Immediate (Felt.SetBigInt 3)))
        [.Immediate (Felt.SetBigInt 40000), .Deref (.FpCellRef 0)]) :=
  (arith_left_associative_folding none
    (TermExp.ofProd ⟨Expression.ofInt ⟨"2", ""⟩, "", Expression.ofInt ⟨"3", ""⟩⟩)
    [AddExp.ofInt "+" ⟨"40000", ""⟩, ⟨"+", TermExp.ofExp (Expression.ofDeref ⟨⟨none, "fp"⟩⟩)⟩]
    (.BinaryOp .Mul (.Immediate (Felt.SetBigInt 2)) (.Immediate (Felt.SetBigInt 3)))
    [.Immediate (Felt.SetBigInt 40000), .Deref (.FpCellRef 0)] rfl
    (Or.inr ⟨_, _, _, rfl⟩)
    (List.Forall₂.cons ⟨rfl, rfl⟩ (List.Forall₂.cons ⟨rfl, rfl⟩ List.Forall₂.nil))).1

/-! ## Theorems: the double deref -/

/-- C19: for every register `r` of `{ap, fp}` and inner offset `a` of the
`int16` range, `DDerefExp.Evaluate` on the bare form `[[r + a]]` returns
`DoubleDeref(Deref(CellRef(r, a)), 0)`, and on the offset form `[[r + a] o K]`
with a literal of value `v` in `[-32767, 32767]` it returns
`DoubleDeref(Deref(CellRef(r, a)), +v)` for `+` and
`DoubleDeref(Deref(CellRef(r, a)), -v)` for `-`; an error of the inner deref or
of the offset is returned, and no `DoubleDeref`. -/
theorem dderef_evaluation (register oa : String) (offa : OffsetExp) (va : Int)
    (hreg : register = "ap" ∨ register = "fp") (hva : offa.Evaluate = .ok va)
    (hva16 : inInt16 va) (ha16 : inInt16 (signedOffset oa va)) :
    (DDerefExp.ofDeref (DerefExp.ofRegisterOffset register oa offa)).Evaluate =
      .ok (.DoubleDeref (.Deref (cellRef register (signedOffset oa va))) 0) ∧
    (∀ (offk : OffsetExp) (v : Int), offk.Evaluate = .ok v → -32767 ≤ v → v ≤ 32767 →
      (DDerefExp.ofDerefOffset (DerefExp.ofRegisterOffset register oa offa) "+" offk).Evaluate =
        .ok (.DoubleDeref (.Deref (cellRef register (signedOffset oa va))) v) ∧
      (DDerefExp.ofDerefOffset (DerefExp.ofRegisterOffset register oa offa) "-" offk).Evaluate =
        .ok (.DoubleDeref (.Deref (cellRef register (signedOffset oa va))) (-v))) ∧
    (∀ (d : DerefExp) (err : EvalError), d.Evaluate = .error err →
      (DDerefExp.ofDeref d).Evaluate = .error err ∧
      ∀ (o : String) (offk : OffsetExp),
        (DDerefExp.ofDerefOffset d o offk).Evaluate = .error err) ∧
    (∀ (d : DerefExp) (x : Reference) (o : String) (offk : OffsetExp), d.Evaluate = .ok x →
      (∀ err, offk.Evaluate = .error err →
        (DDerefExp.ofDerefOffset d o offk).Evaluate = .error err) ∧
      (∀ v, offk.Evaluate = .ok v → ¬ inInt16 v →
        (DDerefExp.ofDerefOffset d o offk).Evaluate =
          .error (.error "offset does not fit in int16"))) := by
  have hd := DerefExp.evaluate_ofRegisterOffset register oa offa va hreg hva hva16 ha16
  refine ⟨?_, ?_, ?_, ?_⟩
  · simp only [DDerefExp.Evaluate, DDerefExp.ofDeref, hd]
  · intro offk v hv hlo hhi
    have hv16 : inInt16 v := ⟨by omega, hhi⟩
    have hplus : inInt16 (signedOffset "+" v) := hv16
    have hminus : inInt16 (signedOffset "-" v) := by
      have : signedOffset "-" v = -v := rfl
      rw [this]
      exact ⟨by omega, by omega⟩
    exact ⟨DDerefExp.evaluate_ofDerefOffset register oa "+" offa offk va v hreg hva hva16 ha16
        hv hv16 hplus,
      DDerefExp.evaluate_ofDerefOffset register oa "-" offa offk va v hreg hva hva16 ha16
        hv hv16 hminus⟩
  · intro d err hderr
    refine ⟨by simp only [DDerefExp.Evaluate, DDerefExp.ofDeref, hderr], ?_⟩
    intro o offk
    simp only [DDerefExp.Evaluate, DDerefExp.ofDerefOffset, hderr]
  · intro d x o offk hdx
    constructor
    · intro err herr
      simp only [DDerefExp.Evaluate, DDerefExp.ofDerefOffset, hdx, herr]
    · intro v hv hout
      have hn : Int16FromBigInt v = none := by
        unfold Int16FromBigInt
        exact if_neg hout
      simp only [DDerefExp.Evaluate, DDerefExp.ofDerefOffset, hdx, hv, hn]

/-- C19 at the trees of `[[fp - 2]]` and `[[fp - 2] - 3]`. -/
theorem dderef_evaluation_witness :
    (DDerefExp.ofDeref (DerefExp.ofRegisterOffset "fp" "-" ⟨"2", ""⟩)).Evaluate =
      .ok (.DoubleDeref (.Deref (cellRef "fp" (signedOffset "-" 2))) 0) ∧
    (DDerefExp.ofDerefOffset (DerefExp.ofRegisterOffset "fp" "-" ⟨"2", ""⟩) "-"
        ⟨"3", ""⟩).Evaluate =
      .ok (.DoubleDeref (.Deref (cellRef "fp" (signedOffset "-" 2))) (-3)) :=
  ⟨(dderef_evaluation "fp" "-" ⟨"2", ""⟩ 2 (Or.inr rfl) rfl (by decide) (by decide)).1,
    ((dderef_evaluation "fp" "-" ⟨"2", ""⟩ 2 (Or.inr rfl) rfl (by decide) (by decide)).2.1
      ⟨"3", ""⟩ 3 rfl (by decide) (by decide)).2⟩

/-! ## Theorems: the hints and the scopes -/

/-- The value of `n` in the scope after the assignment the hint makes. -/
theorem getVariableValue_assignVariable (sm : ScopeManager) (top : Scope) (rest : List Scope)
    (x : ScopeValue) (hscopes : sm.scopes = top :: rest) :
    (sm.AssignVariable "n" x).GetVariableValue "n" = .ok x := by
  simp [ScopeManager.AssignVariable, ScopeManager.GetVariableValue, hscopes]

/-- C16: when the top scope holds the field element `v` under `n` and the
resolution of the output address fails, or the write to the output cell fails
(as when the cell holds a value already), the operation returns that error,
the memory is as before and the scope holds `v - 1` under `n`; and when `n` is
absent from the top scope the operation returns the error of the scope
manager and leaves the scope stack and the memory as they were. -/
theorem memcpy_no_rollback (feltIsPositive : Felt → Bool) (nOp dst : ResOperander)
    (vm : VirtualMachine) (ctx : HintRunnerContext) (top : Scope) (rest : List Scope)
    (hscopes : ctx.ScopeManager.scopes = top :: rest) :
    (∀ (v : Felt) (err : HintError), top "n" = some (.felt v) →
      dst.GetAddress vm = .error err →
      ((newMemcpyContinueCopyingHinter feltIsPositive nOp dst).Op vm ctx).err = some err ∧
      ((newMemcpyContinueCopyingHinter feltIsPositive nOp dst).Op vm ctx).vm = vm ∧
      ((newMemcpyContinueCopyingHinter feltIsPositive nOp dst).Op vm
          ctx).ctx.ScopeManager.GetVariableValue "n" = .ok (.felt (v - 1))) ∧
    (∀ (v : Felt) (a : MemoryAddress) (err : HintError), top "n" = some (.felt v) →
      dst.GetAddress vm = .ok a →
      vm.Memory.WriteToAddress a (.felt (if feltIsPositive v then 0 else 1)) = .error err →
      ((newMemcpyContinueCopyingHinter feltIsPositive nOp dst).Op vm ctx).err = some err ∧
      ((newMemcpyContinueCopyingHinter feltIsPositive nOp dst).Op vm ctx).vm = vm ∧
      ((newMemcpyContinueCopyingHinter feltIsPositive nOp dst).Op vm
          ctx).ctx.ScopeManager.GetVariableValue "n" = .ok (.felt (v - 1))) ∧
    (∀ (a : MemoryAddress) (x y : MemoryValue), vm.Memory a = some x →
      ∃ err, vm.Memory.WriteToAddress a y = .error err) ∧
    (top "n" = none →
      (∃ err, ctx.ScopeManager.GetVariableValue "n" = .error err ∧
        ((newMemcpyContinueCopyingHinter feltIsPositive nOp dst).Op vm ctx).err = some err) ∧
      ((newMemcpyContinueCopyingHinter feltIsPositive nOp dst).Op vm ctx).vm = vm ∧
      ((newMemcpyContinueCopyingHinter feltIsPositive nOp dst).Op vm ctx).ctx = ctx) := by
  refine ⟨?_, ?_, ?_, ?_⟩
  · intro v err hn hdst
    have hctx := memcpy_ctx_of_lookup feltIsPositive nOp dst vm ctx top rest v hscopes hn
    rw [hctx, getVariableValue_assignVariable _ top rest _ hscopes]
    rw [memcpy_op_of_lookup feltIsPositive nOp dst vm ctx top rest v hscopes hn, hdst]
    exact ⟨rfl, rfl, rfl⟩
  · intro v a err hn hdst hw
    have hctx := memcpy_ctx_of_lookup feltIsPositive nOp dst vm ctx top rest v hscopes hn
    rw [hctx, getVariableValue_assignVariable _ top rest _ hscopes]
    have hval : (if !feltIsPositive v then MemoryValueFromFieldElement FeltOne
        else MemoryValueFromFieldElement FeltZero) =
        MemoryValue.felt (if feltIsPositive v then 0 else 1) := by
      cases feltIsPositive v <;> rfl
    rw [memcpy_op_of_lookup feltIsPositive nOp dst vm ctx top rest v hscopes hn, hdst]
    simp only [hval, hw]
    refine ⟨?_, ?_, ?_⟩ <;> first | rfl | trivial
  · intro a x y hx
    exact ⟨.error "rewriting cell", by simp only [Memory.WriteToAddress, hx]⟩
  · intro hn
    simp only [newMemcpyContinueCopyingHinter, ScopeManager.GetVariableValue, hscopes, hn]
    refine ⟨⟨_, rfl, ?_⟩, ?_, ?_⟩ <;> first | rfl | trivial

/-- C16 with `n = 3` in the scope and an output cell that holds `7` already:
the write fails, the error is returned and the scope holds `n = 2`. -/
theorem memcpy_no_rollback_witness :
    ((newMemcpyContinueCopyingHinter FeltIsPositive (operandAt (cellAt 7))
        (operandAt (cellAt 3))).Op
        ⟨fun a => if a = cellAt 3 then some (.felt 7) else none, cellAt 0, cellAt 0⟩
        (contextWithN 3)).err = some (.error "rewriting cell") ∧
    ((newMemcpyContinueCopyingHinter FeltIsPositive (operandAt (cellAt 7))
        (operandAt (cellAt 3))).Op
        ⟨fun a => if a = cellAt 3 then some (.felt 7) else none, cellAt 0, cellAt 0⟩
        (contextWithN 3)).vm =
      ⟨fun a => if a = cellAt 3 then some (.felt 7) else none, cellAt 0, cellAt 0⟩ ∧
    ((newMemcpyContinueCopyingHinter FeltIsPositive (operandAt (cellAt 7))
        (operandAt (cellAt 3))).Op
        ⟨fun a => if a = cellAt 3 then some (.felt 7) else none, cellAt 0, cellAt 0⟩
        (contextWithN 3)).ctx.ScopeManager.GetVariableValue "n" =
      .ok (.felt ((3 : Felt) - 1)) :=
  (memcpy_no_rollback FeltIsPositive (operandAt (cellAt 7)) (operandAt (cellAt 3))
    ⟨fun a => if a = cellAt 3 then some (.felt 7) else none, cellAt 0, cellAt 0⟩
    (contextWithN 3) (scopeWithN 3) [] rfl).2.1 3 (cellAt 3) (.error "rewriting cell") rfl rfl
    rfl

/-- C17: the operations built by `createVMEnterScopeHinter` and
`createVMExitScopeHinter` keep the stack discipline. From a stack with the
root scope only, entering twice and exiting twice succeeds each time and
leaves the stack as it was; one more exit returns the error "cannot exit the
last scope" and leaves the stack as it is. Entering always succeeds and
pushes an empty scope, in which the lookup of every variable fails. -/
theorem scope_hints_stack_discipline (resolver : hintReferenceResolver) :
    ∃ enter exit : GenericZeroHinter,
      createVMEnterScopeHinter resolver = .ok enter ∧
      createVMExitScopeHinter resolver = .ok exit ∧
      (∀ (vm : VirtualMachine) (root : Scope),
        (enter.Op vm ⟨⟨[root]⟩⟩).err = none ∧
        (enter.Op vm (enter.Op vm ⟨⟨[root]⟩⟩).ctx).err = none ∧
        (exit.Op vm (enter.Op vm (enter.Op vm ⟨⟨[root]⟩⟩).ctx).ctx).err = none ∧
        (exit.Op vm (exit.Op vm (enter.Op vm (enter.Op vm ⟨⟨[root]⟩⟩).ctx).ctx).ctx).err =
          none ∧
        (exit.Op vm (exit.Op vm (enter.Op vm
          (enter.Op vm ⟨⟨[root]⟩⟩).ctx).ctx).ctx).ctx.ScopeManager.scopes = [root] ∧
        (exit.Op vm ⟨⟨[root]⟩⟩).err = some (.error "cannot exit the last scope") ∧
        (exit.Op vm ⟨⟨[root]⟩⟩).ctx.ScopeManager.scopes = [root]) ∧
      (∀ (vm : VirtualMachine) (ctx : HintRunnerContext),
        (enter.Op vm ctx).err = none ∧
        (enter.Op vm ctx).vm = vm ∧
        (enter.Op vm ctx).ctx.ScopeManager.scopes = Scope.empty :: ctx.ScopeManager.scopes ∧
        ∀ name : String,
          (enter.Op vm ctx).ctx.ScopeManager.GetVariableValue name =
            .error (.error "variable not found")) :=
  ⟨_, _, rfl, rfl, fun _ _ => ⟨rfl, rfl, rfl, rfl, rfl, rfl, rfl⟩,
    fun _ _ => ⟨rfl, rfl, rfl, fun _ => rfl⟩⟩

/-- C20: after a successful run of MemcpyContinueCopying the output cell is
decided by the positivity of the value `v` of `n` as read before the
decrement: it holds `0` exactly when `v` is positive and `1` exactly when `v`
is not positive; the scope then holds `v - 1` under `n`. -/
theorem memcpy_actual_polarity (feltIsPositive : Felt → Bool) (nOp dst : ResOperander)
    (vm : VirtualMachine) (ctx : HintRunnerContext) (top : Scope) (rest : List Scope)
    (v : Felt) (a : MemoryAddress) (hscopes : ctx.ScopeManager.scopes = top :: rest)
    (hn : top "n" = some (.felt v)) (hdst : dst.GetAddress vm = .ok a)
    (hok : ((newMemcpyContinueCopyingHinter feltIsPositive nOp dst).Op vm ctx).err = none) :
    (((newMemcpyContinueCopyingHinter feltIsPositive nOp dst).Op vm ctx).vm.Memory a =
        some (.felt 0) ↔ feltIsPositive v = true) ∧
    (((newMemcpyContinueCopyingHinter feltIsPositive nOp dst).Op vm ctx).vm.Memory a =
        some (.felt 1) ↔ feltIsPositive v = false) ∧
    ((newMemcpyContinueCopyingHinter feltIsPositive nOp dst).Op vm
        ctx).ctx.ScopeManager.GetVariableValue "n" = .ok (.felt (v - 1)) := by
  have hcell := memcpy_output_cell feltIsPositive nOp dst vm ctx top rest v a hscopes hn hdst hok
  have hctx := memcpy_ctx_of_lookup feltIsPositive nOp dst vm ctx top rest v hscopes hn
  have h01 : (0 : Felt) ≠ 1 := by decide
  rw [hcell, hctx, getVariableValue_assignVariable _ top rest _ hscopes]
  refine ⟨?_, ?_, rfl⟩
  · cases feltIsPositive v <;> simp [h01.symm]
  · cases feltIsPositive v <;> simp [h01]

/-- C20 with `n = 1` in the scope: `1` is positive, the output cell holds `0`
and the scope holds `n = 0`. -/
theorem memcpy_actual_polarity_witness :
    FeltIsPositive 1 = true ∧
    ((newMemcpyContinueCopyingHinter FeltIsPositive (operandAt (cellAt 7))
        (operandAt (cellAt 3))).Op emptyVM (contextWithN 1)).vm.Memory (cellAt 3) =
      some (.felt 0) ∧
    ((newMemcpyContinueCopyingHinter FeltIsPositive (operandAt (cellAt 7))
        (operandAt (cellAt 3))).Op emptyVM (contextWithN 1)).ctx.ScopeManager.GetVariableValue
      "n" = .ok (.felt 0) :=
  ⟨by decide,
    (memcpy_actual_polarity FeltIsPositive (operandAt (cellAt 7)) (operandAt (cellAt 3))
      emptyVM (contextWithN 1) (scopeWithN 1) [] 1 (cellAt 3) rfl rfl rfl rfl).1.mpr
      (by decide),
    (memcpy_actual_polarity FeltIsPositive (operandAt (cellAt 7)) (operandAt (cellAt 3))
      emptyVM (contextWithN 1) (scopeWithN 1) [] 1 (cellAt 3) rfl rfl rfl rfl).2.2⟩

/-! ## Theorems: the SHA-256 hints -/

/-- A round keeps the eight working words eight. -/
theorem sha256Round_length (s : List Nat) (kw : Nat × Nat) (hs : s.length = 8) :
    (sha256Round s kw).length = 8 := by
  unfold sha256Round
  split
  · rfl
  · exact hs

/-- The compression from the initial state gives eight words. -/
theorem sha256Compress_length (block : List Nat) :
    (sha256Compress sha256IV block).length = 8 := by
  have hfold : ∀ (kws : List (Nat × Nat)) (s : List Nat), s.length = 8 →
      (kws.foldl sha256Round s).length = 8 := by
    intro kws
    induction kws with
    | nil => intro s hs; exact hs
    | cons kw kws ih => intro s hs; exact ih _ (sha256Round_length s kw hs)
  unfold sha256Compress
  rw [List.length_zipWith, hfold (sha256K.zip (messageSchedule block)) sha256IV rfl]
  rfl

/-- Adding no cell to an address gives the address. -/
theorem MemoryAddress.addOffset_zero (a : MemoryAddress) : a.AddOffset 0 = a := rfl

/-- Writing field elements into cells that hold nothing succeeds; the cells
of the run then hold the elements, in their order, and every other cell is
as before. -/
theorem Memory.writeFelts_free : ∀ (fs : List Felt) (m : Memory) (a : MemoryAddress),
    (∀ i, i < fs.length → m (a.AddOffset i) = none) →
    (m.writeFelts a fs).1 = none ∧
    ∀ b : MemoryAddress, (m.writeFelts a fs).2 b =
      if b.SegmentIndex = a.SegmentIndex ∧ a.Offset ≤ b.Offset ∧
          b.Offset < a.Offset + fs.length
      then (fs.get? (b.Offset - a.Offset)).map MemoryValue.felt else m b := by
  intro fs
  induction fs with
  | nil =>
    intro m a _
    refine ⟨rfl, fun b => ?_⟩
    have : ¬ (b.SegmentIndex = a.SegmentIndex ∧ a.Offset ≤ b.Offset ∧
        b.Offset < a.Offset + ([] : List Felt).length) := by
      simp only [List.length_nil, Nat.add_zero]
      omega
    rw [if_neg this]
    rfl
  | cons f fs ih =>
    intro m a hfree
    have h0 : m a = none := hfree 0 (by simp)
    have hw : m.WriteToAddress a (MemoryValueFromFieldElement f) =
        .ok (fun x => if x = a then some (.felt f) else m x) := by
      simp only [Memory.WriteToAddress, h0, MemoryValueFromFieldElement]
    have hne : ∀ i, a.AddOffset (i + 1) ≠ a := by
      intro i h
      have := congrArg MemoryAddress.Offset h
      simp only [MemoryAddress.AddOffset] at this
      omega
    have hfree' : ∀ i, i < fs.length →
        (fun x => if x = a then some (MemoryValue.felt f) else m x)
          ((a.AddOffset 1).AddOffset i) = none := by
      intro i hi
      have hadd : (a.AddOffset 1).AddOffset i = a.AddOffset (i + 1) := by
        simp only [MemoryAddress.AddOffset, MemoryAddress.mk.injEq, true_and]
        omega
      rw [hadd]
      simp only [hne i, if_false]
      exact hfree (i + 1) (by simp only [List.length_cons]; omega)
    obtain ⟨herr, hmem⟩ := ih (fun x => if x = a then some (MemoryValue.felt f) else m x)
      (a.AddOffset 1) hfree'
    have hunfold : m.writeFelts a (f :: fs) =
        Memory.writeFelts (fun x => if x = a then some (.felt f) else m x) (a.AddOffset 1) fs := by
      simp only [Memory.writeFelts, hw]
    rw [hunfold]
    refine ⟨herr, fun b => ?_⟩
    rw [hmem b]
    by_cases hb : b = a
    · subst hb
      simp [MemoryAddress.AddOffset]
    · have hb' : ¬ (b.SegmentIndex = a.SegmentIndex ∧ b.Offset = a.Offset) := by
        intro h
        apply hb
        cases b; cases a
        simp only [MemoryAddress.mk.injEq]
        exact h
      simp only [MemoryAddress.AddOffset, List.length_cons, hb, if_false]
      by_cases hin : b.SegmentIndex = a.SegmentIndex ∧ a.Offset + 1 ≤ b.Offset ∧
          b.Offset < a.Offset + 1 + fs.length
      · have hin' : b.SegmentIndex = a.SegmentIndex ∧ a.Offset ≤ b.Offset ∧
            b.Offset < a.Offset + (fs.length + 1) := ⟨hin.1, by omega, by omega⟩
        rw [if_pos hin, if_pos hin']
        have hidx : b.Offset - a.Offset = (b.Offset - (a.Offset + 1)) + 1 := by omega
        rw [hidx]
        rfl
      · have hin' : ¬ (b.SegmentIndex = a.SegmentIndex ∧ a.Offset ≤ b.Offset ∧
            b.Offset < a.Offset + (fs.length + 1)) := by
          intro h
          apply hin
          refine ⟨h.1, ?_, by omega⟩
          by_contra hlt
          exact hb' ⟨h.1, by omega⟩
        rw [if_neg hin, if_neg hin']

/-- The cell `i` of a run of written field elements. -/
theorem Memory.writeFelts_cell (fs : List Felt) (m : Memory) (a : MemoryAddress)
    (hfree : ∀ i, i < fs.length → m (a.AddOffset i) = none) (i : Nat) (hi : i < fs.length) :
    (m.writeFelts a fs).2 (a.AddOffset i) = some (.felt (fs.getD i 0)) := by
  rw [(Memory.writeFelts_free fs m a hfree).2]
  have hin : (a.AddOffset i).SegmentIndex = a.SegmentIndex ∧ a.Offset ≤ (a.AddOffset i).Offset ∧
      (a.AddOffset i).Offset < a.Offset + fs.length :=
    ⟨rfl, Nat.le_add_right _ _, Nat.add_lt_add_left hi _⟩
  rw [if_pos hin]
  have hidx : (a.AddOffset i).Offset - a.Offset = i := by
    simp only [MemoryAddress.AddOffset]
    omega
  rw [hidx, List.getD_eq_getElem?_getD, List.get?_eq_getElem?]
  rw [List.getElem?_eq_getElem hi]
  rfl

/-- The field element of a word of 32 bits has that word as its value. -/
theorem feltOfWord_val (w : Nat) (hw : w < 4294967296) : (feltOfWord w).val = w := by
  unfold feltOfWord Felt.SetBigInt P
  simp only
  omega

/-- Every word of a sum of two lists taken modulo `2^32` is a word of 32 bits. -/
theorem zipWith_mod_getD_lt :
    ∀ (xs ys : List Nat) (i : Nat),
      (List.zipWith (fun x y => (x + y) % 4294967296) xs ys).getD i 0 < 4294967296 := by
  intro xs
  induction xs with
  | nil => intro ys i; simp
  | cons x xs ih =>
    intro ys i
    cases ys with
    | nil => simp
    | cons y ys =>
      cases i with
      | zero =>
        simp only [List.zipWith_cons_cons, List.getD_cons_zero]
        omega
      | succ i =>
        simp only [List.zipWith_cons_cons, List.getD_cons_succ]
        exact ih ys i

/-- Every word the compression gives is a word of 32 bits. -/
theorem sha256Compress_getD_lt (state block : List Nat) (i : Nat) :
    (sha256Compress state block).getD i 0 < 4294967296 :=
  zipWith_mod_getD_lt _ _ i

/-- The address held in an operand, from the cell of the operand and the
address that cell holds. -/
theorem resolveAsAddress_of_cell (vm : VirtualMachine) (op : ResOperander)
    (c a : MemoryAddress) (h1 : op.GetAddress vm = .ok c)
    (h2 : vm.Memory c = some (.address a)) : ResolveAsAddress vm op = .ok a := by
  simp only [ResolveAsAddress, h1, Memory.ReadFromAddress, h2]

/-- Reading a window of cells that hold words of 32 bits gives these words. -/
theorem Memory.readWords_cells (m : Memory) :
    ∀ (ws : List Felt) (a : MemoryAddress),
      (∀ i, i < ws.length → m (a.AddOffset i) = some (.felt (ws.getD i 0))) →
      (∀ f ∈ ws, f.val < 4294967296) →
      m.readWords a ws.length = .ok (ws.map Fin.val) := by
  intro ws
  induction ws with
  | nil => intro a _ _; rfl
  | cons f fs ih =>
    intro a hcells h32
    have h0 : m a = some (.felt f) := hcells 0 (by simp)
    have hf : f.val < 4294967296 := h32 f (List.mem_cons_self _ _)
    have hrest := ih (a.AddOffset 1)
      (fun i hi => by
        have hadd : (a.AddOffset 1).AddOffset i = a.AddOffset (i + 1) := by
          simp only [MemoryAddress.AddOffset, MemoryAddress.mk.injEq, true_and]
          omega
        rw [hadd]
        have := hcells (i + 1) (by simp only [List.length_cons]; omega)
        simpa using this)
      (fun g hg => h32 g (List.mem_cons_of_mem _ hg))
    simp only [List.length_cons, Memory.readWords, Memory.ReadFromAddress, h0, hf, if_true,
      hrest, List.map_cons]

/-- The run of PackedSha256 on 16 input words held in memory: no error, and
the cell `i` of the output holds the field element of the word `i` of the
compression. -/
theorem packedSha256_run (sha256Start output : ResOperander) (vm : VirtualMachine)
    (ctx : HintRunnerContext) (c1 c2 start out : MemoryAddress) (ws : List Felt)
    (hs1 : sha256Start.GetAddress vm = .ok c1) (hs2 : vm.Memory c1 = some (.address start))
    (ho1 : output.GetAddress vm = .ok c2) (ho2 : vm.Memory c2 = some (.address out))
    (hlen : ws.length = 16)
    (hin : ∀ i, i < 16 → vm.Memory (start.AddOffset i) = some (.felt (ws.getD i 0)))
    (h32 : ∀ f ∈ ws, f.val < 4294967296)
    (hfree : ∀ i, i < 8 → vm.Memory (out.AddOffset i) = none) :
    ((newPackedSha256Hint sha256Start output).Op vm ctx).err = none ∧
    (∀ i, i < 8 →
      ((newPackedSha256Hint sha256Start output).Op vm ctx).vm.Memory (out.AddOffset i) =
        some (.felt (feltOfWord ((sha256Compress sha256IV (ws.map Fin.val)).getD i 0)))) ∧
    ∀ b : MemoryAddress,
      ¬ (b.SegmentIndex = out.SegmentIndex ∧ out.Offset ≤ b.Offset ∧ b.Offset < out.Offset + 8) →
      ((newPackedSha256Hint sha256Start output).Op vm ctx).vm.Memory b = vm.Memory b := by
  have hstart := resolveAsAddress_of_cell vm sha256Start c1 start hs1 hs2
  have hout := resolveAsAddress_of_cell vm output c2 out ho1 ho2
  have hread : vm.Memory.readWords start 16 = .ok (ws.map Fin.val) := by
    rw [← hlen]
    exact Memory.readWords_cells vm.Memory ws start (by rw [hlen]; exact hin) h32
  have hlen8 : ((sha256Compress sha256IV (ws.map Fin.val)).map feltOfWord).length = 8 := by
    rw [List.length_map, sha256Compress_length]
  have hfree' : ∀ i, i < ((sha256Compress sha256IV (ws.map Fin.val)).map feltOfWord).length →
      vm.Memory (out.AddOffset i) = none := by
    rw [hlen8]
    exact hfree
  have hop : (newPackedSha256Hint sha256Start output).Op vm ctx =
      ⟨(vm.Memory.writeFelts out
          ((sha256Compress sha256IV (ws.map Fin.val)).map feltOfWord)).1,
        { vm with Memory :=
            (vm.Memory.writeFelts out
              ((sha256Compress sha256IV (ws.map Fin.val)).map feltOfWord)).2 },
        ctx⟩ := by
    simp only [newPackedSha256Hint, hstart, hread, hout]
  rw [hop]
  refine ⟨(Memory.writeFelts_free _ _ _ hfree').1, ?_, ?_⟩
  · intro i hi
    show (vm.Memory.writeFelts out
      ((sha256Compress sha256IV (ws.map Fin.val)).map feltOfWord)).2 (out.AddOffset i) = _
    rw [Memory.writeFelts_cell _ _ _ hfree' i (by rw [hlen8]; exact hi)]
    have hi' : i < (sha256Compress sha256IV (ws.map Fin.val)).length := by
      rw [sha256Compress_length]
      exact hi
    rw [List.getD_eq_getElem?_getD, List.getD_eq_getElem?_getD, List.getElem?_map,
      List.getElem?_eq_getElem hi']
    rfl
  · intro b hb
    show (vm.Memory.writeFelts out
      ((sha256Compress sha256IV (ws.map Fin.val)).map feltOfWord)).2 b = _
    rw [(Memory.writeFelts_free _ _ _ hfree').2 b, hlen8, if_neg hb]

/-- C14: the hint PackedSha256, run on a memory where `sha256_start` holds the
address of 16 input words of 32 bits and `output` the address of 8 cells that
hold nothing, returns no error and leaves in the cell `i` of the output the
field element whose value is the word `i` of the SHA-256 compression of the
initial hash state and the 16 input words; no other cell changes. For the
all-zero block the 8 cells hold 3663108286, 398046313, 1647531929, 2006957770,
2363872401, 3235013187, 3137272298, 406301144. The compression function is
the standard one: on the block of the message `abc` it gives the digest of
FIPS 180-4, and on the all-zero state and block the values of the test
Sha256Chunk. -/
theorem packedSha256_writes_compression (sha256Start output : ResOperander)
    (vm : VirtualMachine) (ctx : HintRunnerContext) (c1 c2 start out : MemoryAddress)
    (ws : List Felt)
    (hs1 : sha256Start.GetAddress vm = .ok c1) (hs2 : vm.Memory c1 = some (.address start))
    (ho1 : output.GetAddress vm = .ok c2) (ho2 : vm.Memory c2 = some (.address out))
    (hlen : ws.length = 16)
    (hin : ∀ i, i < 16 → vm.Memory (start.AddOffset i) = some (.felt (ws.getD i 0)))
    (h32 : ∀ f ∈ ws, f.val < 4294967296)
    (hfree : ∀ i, i < 8 → vm.Memory (out.AddOffset i) = none) :
    ((newPackedSha256Hint sha256Start output).Op vm ctx).err = none ∧
    (∀ i, i < 8 → ∃ f : Felt,
      ((newPackedSha256Hint sha256Start output).Op vm ctx).vm.Memory (out.AddOffset i) =
        some (.felt f) ∧
      f.val = (sha256Compress sha256IV (ws.map Fin.val)).getD i 0) ∧
    (∀ b : MemoryAddress,
      ¬ (b.SegmentIndex = out.SegmentIndex ∧ out.Offset ≤ b.Offset ∧
        b.Offset < out.Offset + 8) →
      ((newPackedSha256Hint sha256Start output).Op vm ctx).vm.Memory b = vm.Memory b) ∧
    ((∀ f ∈ ws, f = 0) →
      ((newPackedSha256Hint sha256Start output).Op vm ctx).vm.Memory (out.AddOffset 0) =
        some (.felt 3663108286) ∧
      ((newPackedSha256Hint sha256Start output).Op vm ctx).vm.Memory (out.AddOffset 1) =
        some (.felt 398046313) ∧
      ((newPackedSha256Hint sha256Start output).Op vm ctx).vm.Memory (out.AddOffset 2) =
        some (.felt 1647531929) ∧
      ((newPackedSha256Hint sha256Start output).Op vm ctx).vm.Memory (out.AddOffset 3) =
        some (.felt 2006957770) ∧
      ((newPackedSha256Hint sha256Start output).Op vm ctx).vm.Memory (out.AddOffset 4) =
        some (.felt 2363872401) ∧
      ((newPackedSha256Hint sha256Start output).Op vm ctx).vm.Memory (out.AddOffset 5) =
        some (.felt 3235013187) ∧
      ((newPackedSha256Hint sha256Start output).Op vm ctx).vm.Memory (out.AddOffset 6) =
        some (.felt 3137272298) ∧
      ((newPackedSha256Hint sha256Start output).Op vm ctx).vm.Memory (out.AddOffset 7) =
        some (.felt 406301144)) ∧
    sha256Compress
        [1779033703, 3144134277, 1013904242, 2773480762, 1359893119, 2600822924, 528734635,
          1541459225]
        [0, 0, 0, 0, 0, 0, 0, 0, 0, 0, 0, 0, 0, 0, 0, 0] =
      [3663108286, 398046313, 1647531929, 2006957770, 2363872401, 3235013187, 3137272298,
        406301144] ∧
    sha256Compress
        [1779033703, 3144134277, 1013904242, 2773480762, 1359893119, 2600822924, 528734635,
          1541459225]
        [1633837952, 0, 0, 0, 0, 0, 0, 0, 0, 0, 0, 0, 0, 0, 0, 24] =
      [0xba7816bf, 0x8f01cfea, 0x414140de, 0x5dae2223, 0xb00361a3, 0x96177a9c, 0xb410ff61,
        0xf20015ad] ∧
    sha256Compress [0, 0, 0, 0, 0, 0, 0, 0] [0, 0, 0, 0, 0, 0, 0, 0, 0, 0, 0, 0, 0, 0, 0, 0] =
      [2091193876, 1113340840, 3461668143, 3254913767, 3068490961, 2551409935, 2927503052,
        3205228454] := by
  obtain ⟨herr, hcell, hframe⟩ := packedSha256_run sha256Start output vm ctx c1 c2 start out ws
    hs1 hs2 ho1 ho2 hlen hin h32 hfree
  refine ⟨herr, ?_, hframe, ?_, by decide, by decide, by decide⟩
  · intro i hi
    exact ⟨_, hcell i hi, feltOfWord_val _ (sha256Compress_getD_lt _ _ i)⟩
  · intro hzero
    have hws : ws = List.replicate 16 0 := by
      rw [List.eq_replicate_iff]
      exact ⟨hlen, hzero⟩
    have hz : ws.map Fin.val = zeroBlock := by
      rw [hws]
      rfl
    have hc : sha256Compress sha256IV zeroBlock = packedSha256Expected := by decide
    refine ⟨?_, ?_, ?_, ?_, ?_, ?_, ?_, ?_⟩ <;>
      · rw [hcell _ (by decide), hz, hc]
        rfl

/-- C14 on the VM of the test: the operands at `ap` and `ap + 1` hold the
addresses `(1, 6)` and `(1, 22)`, the 16 cells from `(1, 6)` hold zero, and
the hint leaves the 8 values the test expects in the cells from `(1, 22)`. -/
theorem packedSha256_writes_compression_witness :
    ((newPackedSha256Hint (operandAt (cellAt 4)) (operandAt (cellAt 5))).Op packedSha256TestVM
        (contextWithN 0)).vm.Memory (cellAt 22) = some (.felt 3663108286) ∧
    ((newPackedSha256Hint (operandAt (cellAt 4)) (operandAt (cellAt 5))).Op packedSha256TestVM
        (contextWithN 0)).vm.Memory (cellAt 23) = some (.felt 398046313) ∧
    ((newPackedSha256Hint (operandAt (cellAt 4)) (operandAt (cellAt 5))).Op packedSha256TestVM
        (contextWithN 0)).vm.Memory (cellAt 24) = some (.felt 1647531929) ∧
    ((newPackedSha256Hint (operandAt (cellAt 4)) (operandAt (cellAt 5))).Op packedSha256TestVM
        (contextWithN 0)).vm.Memory (cellAt 25) = some (.felt 2006957770) ∧
    ((newPackedSha256Hint (operandAt (cellAt 4)) (operandAt (cellAt 5))).Op packedSha256TestVM
        (contextWithN 0)).vm.Memory (cellAt 26) = some (.felt 2363872401) ∧
    ((newPackedSha256Hint (operandAt (cellAt 4)) (operandAt (cellAt 5))).Op packedSha256TestVM
        (contextWithN 0)).vm.Memory (cellAt 27) = some (.felt 3235013187) ∧
    ((newPackedSha256Hint (operandAt (cellAt 4)) (operandAt (cellAt 5))).Op packedSha256TestVM
        (contextWithN 0)).vm.Memory (cellAt 28) = some (.felt 3137272298) ∧
    ((newPackedSha256Hint (operandAt (cellAt 4)) (operandAt (cellAt 5))).Op packedSha256TestVM
        (contextWithN 0)).vm.Memory (cellAt 29) = some (.felt 406301144) :=
  (packedSha256_writes_compression (operandAt (cellAt 4)) (operandAt (cellAt 5))
    packedSha256TestVM (contextWithN 0) (cellAt 4) (cellAt 5) (cellAt 6) (cellAt 22)
    (List.replicate 16 0) rfl rfl rfl rfl rfl
    (by intro i hi; interval_cases i <;> rfl)
    (by intro f hf; rw [List.eq_of_mem_replicate hf]; decide)
    (by intro i hi; interval_cases i <;> rfl)).2.2.2.1
    (fun f hf => List.eq_of_mem_replicate hf)

/-- The pattern of the padding has 32 words. -/
theorem paddingPattern_length : paddingPattern.length = 32 := by decide

/-- The padding of `blocks` blocks has `32 * blocks` words. -/
theorem sha256Padding_length (blocks : Nat) : (sha256Padding blocks).length = 32 * blocks := by
  unfold sha256Padding
  induction blocks with
  | zero => rfl
  | succ n ih =>
    rw [List.replicate_succ, List.flatten_cons, List.length_append, ih, paddingPattern_length]
    omega

/-- The word `i` of the padding is the word `i mod 32` of the pattern. -/
theorem sha256Padding_getD (blocks : Nat) :
    ∀ i, i < 32 * blocks → (sha256Padding blocks).getD i 0 = paddingPattern.getD (i % 32) 0 := by
  induction blocks with
  | zero => intro i hi; omega
  | succ n ih =>
    intro i hi
    have hunfold : sha256Padding (n + 1) = paddingPattern ++ sha256Padding n := by
      unfold sha256Padding
      rw [List.replicate_succ, List.flatten_cons]
    rw [hunfold]
    by_cases hlt : i < 32
    · rw [List.getD_append _ _ _ _ (by rw [paddingPattern_length]; exact hlt),
        Nat.mod_eq_of_lt hlt]
    · rw [List.getD_append_right _ _ _ _ (by rw [paddingPattern_length]; omega),
        paddingPattern_length, ih (i - 32) (by omega)]
      congr 1
      omega

set_option maxRecDepth 100000

/-- The padding of 6 blocks is the list the test of the repository expects. -/
theorem sha256Padding_six : sha256Padding 6 = finalizeSha256Expected := by decide

/-- The list the test expects has 192 values. -/
theorem finalizeSha256Expected_length : finalizeSha256Expected.length = 192 := by decide

/-- The pattern of the padding, word by word. -/
theorem paddingPattern_eq :
    paddingPattern =
      [0, 0, 0, 0, 0, 0, 0, 0, 0, 0, 0, 0, 0, 0, 0, 0,
        1779033703, 3144134277, 1013904242, 2773480762, 1359893119, 2600822924, 528734635,
        1541459225,
        3663108286, 398046313, 1647531929, 2006957770, 2363872401, 3235013187, 3137272298,
        406301144] := by
  decide

/-- Every word of the pattern is a word of 32 bits. -/
theorem paddingPattern_getD_lt (j : Nat) : paddingPattern.getD j 0 < 4294967296 := by
  rw [paddingPattern_eq]
  by_cases hj : j < 32
  · interval_cases j <;> decide
  · rw [List.getD_eq_default _ _ (by simp only [List.length_cons, List.length_nil]; omega)]
    decide

/-- The run of FinalizeSha256: no error, the cell `i` of the padding holds the
field element of the word `i` of the list the test expects, and every other
cell is as before. -/
theorem finalizeSha256_run (sha256PtrEnd : ResOperander) (vm : VirtualMachine)
    (ctx : HintRunnerContext) (c out : MemoryAddress)
    (h1 : sha256PtrEnd.GetAddress vm = .ok c) (h2 : vm.Memory c = some (.address out))
    (hfree : ∀ i, i < 192 → vm.Memory (out.AddOffset i) = none) :
    ((newFinalizeSha256Hint sha256PtrEnd).Op vm ctx).err = none ∧
    (∀ i, i < 192 →
      ((newFinalizeSha256Hint sha256PtrEnd).Op vm ctx).vm.Memory (out.AddOffset i) =
        some (.felt (feltOfWord (finalizeSha256Expected.getD i 0)))) ∧
    ∀ b : MemoryAddress,
      ¬ (b.SegmentIndex = out.SegmentIndex ∧ out.Offset ≤ b.Offset ∧
        b.Offset < out.Offset + 192) →
      ((newFinalizeSha256Hint sha256PtrEnd).Op vm ctx).vm.Memory b = vm.Memory b := by
  have hout := resolveAsAddress_of_cell vm sha256PtrEnd c out h1 h2
  have hpad : sha256Padding finalizeSha256Blocks = finalizeSha256Expected := sha256Padding_six
  have hlen : (finalizeSha256Expected.map feltOfWord).length = 192 := by
    rw [List.length_map, finalizeSha256Expected_length]
  have hfree' : ∀ i, i < (finalizeSha256Expected.map feltOfWord).length →
      vm.Memory (out.AddOffset i) = none := by
    rw [hlen]
    exact hfree
  have hop : (newFinalizeSha256Hint sha256PtrEnd).Op vm ctx =
      ⟨(vm.Memory.writeFelts out (finalizeSha256Expected.map feltOfWord)).1,
        { vm with Memory := (vm.Memory.writeFelts out (finalizeSha256Expected.map feltOfWord)).2 },
        ctx⟩ := by
    simp only [newFinalizeSha256Hint, hout, hpad]
  rw [hop]
  refine ⟨(Memory.writeFelts_free _ _ _ hfree').1, ?_, ?_⟩
  · intro i hi
    show (vm.Memory.writeFelts out (finalizeSha256Expected.map feltOfWord)).2
      (out.AddOffset i) = _
    rw [Memory.writeFelts_cell _ _ _ hfree' i (by rw [hlen]; exact hi)]
    have hi' : i < finalizeSha256Expected.length := by
      rw [finalizeSha256Expected_length]
      exact hi
    rw [List.getD_eq_getElem?_getD, List.getD_eq_getElem?_getD, List.getElem?_map,
      List.getElem?_eq_getElem hi']
    rfl
  · intro b hb
    show (vm.Memory.writeFelts out (finalizeSha256Expected.map feltOfWord)).2 b = _
    rw [(Memory.writeFelts_free _ _ _ hfree').2 b, hlen, if_neg hb]

/-- C15: the hint FinalizeSha256, built from the one operand `sha256_ptr_end`
and run on a memory where that operand holds the address of 192 cells that
hold nothing, returns no error and writes exactly these 192 cells, 6
repetitions of one pattern of 32 words: the cell `i` holds the field element
whose value is the entry `i` of the list the test of the repository expects,
which is the word `i mod 32` of the pattern made of 16 words equal to 0, the 8
initial hash constants of SHA-256 and the 8 words 3663108286, ..., 406301144;
these 8 words are the SHA-256 compression of the all-zero block under these
constants. No other cell changes. -/
theorem finalizeSha256_writes_padding (sha256PtrEnd : ResOperander) (vm : VirtualMachine)
    (ctx : HintRunnerContext) (c out : MemoryAddress)
    (h1 : sha256PtrEnd.GetAddress vm = .ok c) (h2 : vm.Memory c = some (.address out))
    (hfree : ∀ i, i < 192 → vm.Memory (out.AddOffset i) = none) :
    ((newFinalizeSha256Hint sha256PtrEnd).Op vm ctx).err = none ∧
    (∀ i, i < 192 → ∃ f : Felt,
      ((newFinalizeSha256Hint sha256PtrEnd).Op vm ctx).vm.Memory (out.AddOffset i) =
        some (.felt f) ∧
      f.val = finalizeSha256Expected.getD i 0 ∧
      f.val =
        ([0, 0, 0, 0, 0, 0, 0, 0, 0, 0, 0, 0, 0, 0, 0, 0,
          1779033703, 3144134277, 1013904242, 2773480762, 1359893119, 2600822924, 528734635,
          1541459225,
          3663108286, 398046313, 1647531929, 2006957770, 2363872401, 3235013187, 3137272298,
          406301144] : List Nat).getD (i % 32) 0) ∧
    (∀ b : MemoryAddress,
      ¬ (b.SegmentIndex = out.SegmentIndex ∧ out.Offset ≤ b.Offset ∧
        b.Offset < out.Offset + 192) →
      ((newFinalizeSha256Hint sha256PtrEnd).Op vm ctx).vm.Memory b = vm.Memory b) ∧
    finalizeSha256Expected.length = 192 ∧ 192 = 6 * 32 ∧
    sha256Compress
        [1779033703, 3144134277, 1013904242, 2773480762, 1359893119, 2600822924, 528734635,
          1541459225]
        [0, 0, 0, 0, 0, 0, 0, 0, 0, 0, 0, 0, 0, 0, 0, 0] =
      [3663108286, 398046313, 1647531929, 2006957770, 2363872401, 3235013187, 3137272298,
        406301144] ∧
    ((newFinalizeSha256Hint sha256PtrEnd).Op vm ctx).vm.Memory (out.AddOffset 0) =
      some (.felt 0) ∧
    ((newFinalizeSha256Hint sha256PtrEnd).Op vm ctx).vm.Memory (out.AddOffset 16) =
      some (.felt 1779033703) ∧
    ((newFinalizeSha256Hint sha256PtrEnd).Op vm ctx).vm.Memory (out.AddOffset 24) =
      some (.felt 3663108286) ∧
    ((newFinalizeSha256Hint sha256PtrEnd).Op vm ctx).vm.Memory (out.AddOffset 191) =
      some (.felt 406301144) := by
  obtain ⟨herr, hcell, hframe⟩ := finalizeSha256_run sha256PtrEnd vm ctx c out h1 h2 hfree
  have hpat : ∀ i, i < 192 →
      finalizeSha256Expected.getD i 0 = paddingPattern.getD (i % 32) 0 := by
    intro i hi
    rw [← sha256Padding_six]
    exact sha256Padding_getD 6 i (by omega)
  refine ⟨herr, ?_, hframe, finalizeSha256Expected_length, rfl, by decide, ?_, ?_, ?_, ?_⟩
  · intro i hi
    refine ⟨_, hcell i hi, ?_, ?_⟩
    · exact feltOfWord_val _ (by rw [hpat i hi]; exact paddingPattern_getD_lt _)
    · rw [feltOfWord_val _ (by rw [hpat i hi]; exact paddingPattern_getD_lt _), hpat i hi,
        paddingPattern_eq]
  · rw [hcell 0 (by decide)]
    rfl
  · rw [hcell 16 (by decide)]
    rfl
  · rw [hcell 24 (by decide)]
    rfl
  · rw [hcell 191 (by decide)]
    rfl

/-- C15 on the VM of the test: the operand at `ap` holds the address `(1, 5)`;
the hint fills the 192 cells from `(1, 5)` to `(1, 196)` and leaves the cell
`(1, 197)` empty. -/
theorem finalizeSha256_writes_padding_witness :
    ((newFinalizeSha256Hint (operandAt (cellAt 4))).Op finalizeSha256TestVM
        (contextWithN 0)).err = none ∧
    ((newFinalizeSha256Hint (operandAt (cellAt 4))).Op finalizeSha256TestVM
        (contextWithN 0)).vm.Memory ((cellAt 5).AddOffset 0) = some (.felt 0) ∧
    ((newFinalizeSha256Hint (operandAt (cellAt 4))).Op finalizeSha256TestVM
        (contextWithN 0)).vm.Memory ((cellAt 5).AddOffset 16) = some (.felt 1779033703) ∧
    ((newFinalizeSha256Hint (operandAt (cellAt 4))).Op finalizeSha256TestVM
        (contextWithN 0)).vm.Memory ((cellAt 5).AddOffset 24) = some (.felt 3663108286) ∧
    ((newFinalizeSha256Hint (operandAt (cellAt 4))).Op finalizeSha256TestVM
        (contextWithN 0)).vm.Memory ((cellAt 5).AddOffset 191) = some (.felt 406301144) ∧
    ((newFinalizeSha256Hint (operandAt (cellAt 4))).Op finalizeSha256TestVM
        (contextWithN 0)).vm.Memory (cellAt 197) = none :=
  ⟨(finalizeSha256_writes_padding (operandAt (cellAt 4)) finalizeSha256TestVM (contextWithN 0)
      (cellAt 4) (cellAt 5) rfl rfl
      (by
        intro i _
        show operandMemory 4 [.address (cellAt 5)] ((cellAt 5).AddOffset i) = none
        simp [operandMemory, MemoryAddress.AddOffset, cellAt]
        omega)).1,
    (finalizeSha256_writes_padding (operandAt (cellAt 4)) finalizeSha256TestVM (contextWithN 0)
      (cellAt 4) (cellAt 5) rfl rfl
      (by
        intro i _
        show operandMemory 4 [.address (cellAt 5)] ((cellAt 5).AddOffset i) = none
        simp [operandMemory, MemoryAddress.AddOffset, cellAt]
        omega)).2.2.2.2.2.2.1,
    (finalizeSha256_writes_padding (operandAt (cellAt 4)) finalizeSha256TestVM (contextWithN 0)
      (cellAt 4) (cellAt 5) rfl rfl
      (by
        intro i _
        show operandMemory 4 [.address (cellAt 5)] ((cellAt 5).AddOffset i) = none
        simp [operandMemory, MemoryAddress.AddOffset, cellAt]
        omega)).2.2.2.2.2.2.2.1,
    (finalizeSha256_writes_padding (operandAt (cellAt 4)) finalizeSha256TestVM (contextWithN 0)
      (cellAt 4) (cellAt 5) rfl rfl
      (by
        intro i _
        show operandMemory 4 [.address (cellAt 5)] ((cellAt 5).AddOffset i) = none
        simp [operandMemory, MemoryAddress.AddOffset, cellAt]
        omega)).2.2.2.2.2.2.2.2.1,
    (finalizeSha256_writes_padding (operandAt (cellAt 4)) finalizeSha256TestVM (contextWithN 0)
      (cellAt 4) (cellAt 5) rfl rfl
      (by
        intro i _
        show operandMemory 4 [.address (cellAt 5)] ((cellAt 5).AddOffset i) = none
        simp [operandMemory, MemoryAddress.AddOffset, cellAt]
        omega)).2.2.2.2.2.2.2.2.2,
    ((finalizeSha256_writes_padding (operandAt (cellAt 4)) finalizeSha256TestVM (contextWithN 0)
      (cellAt 4) (cellAt 5) rfl rfl
      (by
        intro i _
        show operandMemory 4 [.address (cellAt 5)] ((cellAt 5).AddOffset i) = none
        simp [operandMemory, MemoryAddress.AddOffset, cellAt]
        omega)).2.2.1 (cellAt 197) (by decide)).trans rfl⟩

/-! ## Theorems: the operator of a `BinaryOp` under a bracketed cast, and the
operand `n` of MemcpyContinueCopying -/

/-- C21: the bracketed cast does not look at the operator of a `BinaryOp`.
For every register `r` of `{ap, fp}`, inner offset `a` of the `int16` range
and literal of value `k` in `[0, 32767]`, the inner product `[r + a] * k`
evaluates to `BinaryOp(Mul, Deref(CellRef(r, a)), Immediate(k))`, and
`DerefCastExp.Evaluate` on `[cast([r + a] * k, T*)]` succeeds with
`DoubleDeref(Deref(CellRef(r, a)), k)`, the reference the double deref
`[[r + a] + k]` denotes (and the bracketed cast of the sum `[r + a] + k`, when
a `Deref` is no `CellRefer`). -/
theorem derefCast_ignores_operator (h : DerefAddOffset) (register oa : String)
    (offa litk : OffsetExp) (va k : Int) (castType : List String)
    (hreg : register = "ap" ∨ register = "fp") (hva : offa.Evaluate = .ok va)
    (hva16 : inInt16 va) (ha16 : inInt16 (signedOffset oa va))
    (hk : litk.Evaluate = .ok k) (hk0 : 0 ≤ k) (hk1 : k ≤ 32767) :
    (ArithExp.single (TermExp.ofProd
        ⟨Expression.ofDeref (DerefExp.ofRegisterOffset register oa offa), "",
          Expression.ofInt litk⟩)).Evaluate h =
      .ok (.BinaryOp .Mul (.Deref (cellRef register (signedOffset oa va)))
        (.Immediate (Felt.SetBigInt k))) ∧
    (DerefCastExp.ofValue
        (ArithExp.single (TermExp.ofProd
          ⟨Expression.ofDeref (DerefExp.ofRegisterOffset register oa offa), "",
            Expression.ofInt litk⟩)) castType).Evaluate h =
      .ok (.DoubleDeref (.Deref (cellRef register (signedOffset oa va))) k) ∧
    (DDerefExp.ofDerefOffset (DerefExp.ofRegisterOffset register oa offa) "+" litk).Evaluate =
      .ok (.DoubleDeref (.Deref (cellRef register (signedOffset oa va))) k) ∧
    (DerefCastExp.ofValue
        (ArithExp.mk
          (TermExp.ofExp (Expression.ofDeref (DerefExp.ofRegisterOffset register oa offa)))
          [AddExp.ofInt "+" litk]) castType).Evaluate none =
      .ok (.DoubleDeref (.Deref (cellRef register (signedOffset oa va))) k) ∧
    ParseIdentifier h "[cast([ap + 2] * 5, felt*)]" =
      .ok (.DoubleDeref (.Deref (.ApCellRef 2)) 5) := by
  have hk16 : inInt16 k := ⟨by omega, hk1⟩
  have hd := DerefExp.evaluate_ofRegisterOffset register oa offa va hreg hva hva16 ha16
  have hnarrow := int16FromFelt_setBigInt k hk16
  have hleft : (Expression.ofDeref (DerefExp.ofRegisterOffset register oa offa)).Evaluate =
      .ok (.Deref (cellRef register (signedOffset oa va))) := by
    simp only [Expression.Evaluate, Expression.ofDeref, hd]
  have hright : (Expression.ofInt litk).Evaluate = .ok (.Immediate (Felt.SetBigInt k)) := by
    simp only [Expression.Evaluate, Expression.ofInt, hk]
  have hprod : (TermExp.ofProd
      ⟨Expression.ofDeref (DerefExp.ofRegisterOffset register oa offa), "",
        Expression.ofInt litk⟩).Evaluate =
      .ok (.BinaryOp .Mul (.Deref (cellRef register (signedOffset oa va)))
        (.Immediate (Felt.SetBigInt k))) := by
    simp only [TermExp.Evaluate, TermExp.ofProd, ProdExp.Evaluate, hleft, hright]
  refine ⟨?_, ?_, ?_, ?_, by cases h <;> rfl⟩
  · rw [ArithExp.evaluate_single, hprod]
  · simp only [DerefCastExp.Evaluate, DerefCastExp.ofValue, ArithExp.evaluate_single, hprod,
      DerefCastExp.reinterpret, hnarrow]
  · exact DDerefExp.evaluate_ofDerefOffset register oa "+" offa litk va k hreg hva hva16 ha16 hk
      hk16 hk16
  · have hfirst : (TermExp.ofExp (Expression.ofDeref
        (DerefExp.ofRegisterOffset register oa offa))).Evaluate =
        .ok (.Deref (cellRef register (signedOffset oa va))) := by
      simp only [TermExp.Evaluate, TermExp.ofExp, hleft]
    have hterm := AddExp.evaluate_ofInt "+" litk k hk
    have hop : (AddExp.ofInt "+" litk).Operator = "+" := rfl
    have hparse : parseOperator "+" = .ok .Add := rfl
    have hcell : isCellRefer none (.Deref (cellRef register (signedOffset oa va))) = false :=
      rfl
    simp only [DerefCastExp.Evaluate, DerefCastExp.ofValue, ArithExp.Evaluate, hfirst, hcell,
      Bool.false_eq_true, if_false, ArithExp.fold, hterm, hop, hparse,
      DerefCastExp.reinterpret, hnarrow]

/-- C21 at the tree of `[cast([ap + 2] * 5, felt*)]`. -/
theorem derefCast_ignores_operator_witness :
    (DerefCastExp.ofValue
        (ArithExp.single (TermExp.ofProd
          ⟨Expression.ofDeref (DerefExp.ofRegisterOffset "ap" "+" ⟨"2", ""⟩), "",
            Expression.ofInt ⟨"5", ""⟩⟩)) ["felt"]).Evaluate none =
      .ok (.DoubleDeref (.Deref (cellRef "ap" (signedOffset "+" 2))) 5) :=
  (derefCast_ignores_operator none "ap" "+" ⟨"2", ""⟩ ⟨"5", ""⟩ 2 5 ["felt"] (Or.inl rfl) rfl
    (by decide) (by decide) rfl (by decide) (by decide)).2.1

/-- C22: the operand `n` given to `newMemcpyContinueCopyingHinter` has no
effect. For any two operands `n1`, `n2` and the same `dst`, VM and context the
two operations return the same error and leave the same VM and the same
scopes; the hints built are the same. Yet `createMemcpyContinueCopyingHinter`
returns the error of the resolver, and no hint, when the operand named `n`
cannot be resolved; when `n` and `output` are resolved it returns the hint
built from them. -/
theorem memcpy_n_operand_is_shadowed (feltIsPositive : Felt → Bool)
    (n1 n2 dst : ResOperander) :
    (∀ (vm : VirtualMachine) (ctx : HintRunnerContext),
      (newMemcpyContinueCopyingHinter feltIsPositive n1 dst).Op vm ctx =
        (newMemcpyContinueCopyingHinter feltIsPositive n2 dst).Op vm ctx) ∧
    newMemcpyContinueCopyingHinter feltIsPositive n1 dst =
      newMemcpyContinueCopyingHinter feltIsPositive n2 dst ∧
    (∀ (resolver : hintReferenceResolver) (err : HintError),
      resolver.GetResOperander "n" = .error err →
      createMemcpyContinueCopyingHinter feltIsPositive resolver = .error err) ∧
    (∀ (resolver : hintReferenceResolver) (n output : ResOperander),
      resolver.GetResOperander "n" = .ok n → resolver.GetResOperander "output" = .ok output →
      createMemcpyContinueCopyingHinter feltIsPositive resolver =
        .ok (newMemcpyContinueCopyingHinter feltIsPositive n output)) := by
  refine ⟨fun _ _ => rfl, rfl, ?_, ?_⟩
  · intro resolver err hn
    simp only [createMemcpyContinueCopyingHinter, hn]
  · intro resolver n output hn hout
    simp only [createMemcpyContinueCopyingHinter, hn, hout]

/-- C22 with a resolver that knows `output` and not `n`: no hint is built,
though the hint would never read the operand `n`. -/
theorem memcpy_n_operand_is_shadowed_witness :
    createMemcpyContinueCopyingHinter FeltIsPositive
        ⟨fun name =>
          if name = "output" then .ok (operandAt (cellAt 3))
          else .error (.error "unknown operand")⟩ =
      .error (.error "unknown operand") :=
  (memcpy_n_operand_is_shadowed FeltIsPositive (operandAt (cellAt 7)) (operandAt (cellAt 8))
    (operandAt (cellAt 3))).2.2.1
    ⟨fun name =>
      if name = "output" then .ok (operandAt (cellAt 3)) else .error (.error "unknown operand")⟩
    (.error "unknown operand") rfl

end Zero
